import Mathlib

/-!
Verification development for the vibe-sync hybrid code-indexing engine
(scripts/vibe-sync.py).

The Python source is shallowly embedded below:

* SQLite tables (code_chunks, symbols, components) become lists of records;
  a row's insertion order models SQLite's default rowid scan order.
* Python floats are modelled as exact rationals (for the search scores,
  which the program only ever assigns from literals, compares and
  combines linearly) and as real numbers (for cosine similarity, which
  involves square roots).  Score literals are written with mkRat.
* SQLite's LIKE operator is modelled in full (including % and _
  wildcards); the default LIKE collation is case-insensitive for ASCII,
  which the model implements by ASCII-lowering both operands.
* Network calls (the Ollama availability probe and the query embedding)
  are modelled as explicit parameters.
* Failure of SQL statements against a store whose schema was never
  initialized is modelled with Except: a query against an uninitialized
  store is an error, mirroring sqlite3.OperationalError.
-/

/-! ## ASCII case folding and SQLite LIKE -/

/-- ASCII lower-casing of one character, as used by SQLite's default
NOCASE/LIKE handling (only A-Z are folded). -/
def asciiLower (c : Char) : Char :=
  if 'A' ≤ c ∧ c ≤ 'Z' then Char.ofNat (c.toNat + 32) else c

/-- ASCII lower-casing of a string (SQLite's LOWER function, which also
only folds A-Z). -/
def lowerStr (s : String) : String := String.mk (s.toList.map asciiLower)

/-- Character comparison used by SQLite LIKE: ASCII case-insensitive. -/
def likeCharEq (c d : Char) : Bool := asciiLower c == asciiLower d

/-- Core LIKE matcher over character lists.  The pattern may contain
the wildcard % (any sequence) and _ (any single character); ordinary
characters compare ASCII case-insensitively, mirroring SQLite's default
LIKE semantics. -/
def likeChars : List Char → List Char → Bool
  | [], s => s.isEmpty
  | c :: p, s =>
    if c = '%' then (List.range (s.length + 1)).any (fun k => likeChars p (s.drop k))
    else if c = '_' then !s.isEmpty && likeChars p s.tail
    else !s.isEmpty && (likeCharEq c (s.headD c) && likeChars p s.tail)

/-- SQLite: value LIKE pattern (default, ASCII case-insensitive). -/
def sqlLike (pat s : String) : Bool := likeChars pat.toList s.toList

/-! ## Data model: the vibe.db tables.

Fields mirror the columns actually written and read by vibe-sync.py
(columns that the program always leaves NULL or never reads are
omitted).  The ftsTokens field models the FTS5 index entry for a chunk:
a single-term MATCH succeeds exactly when the term is one of the
indexed tokens of the row. -/

/-- A row of the symbols table. -/
structure SymbolRow where
  project_path : String
  file_path : String
  symbol_name : String
  symbol_type : String
  parent_symbol : Option String
  language : String
  start_line : Nat
  end_line : Nat
  chunk_id : Option Nat
deriving DecidableEq

/-- A row of the code_chunks table.  The embedding blob is decoded to
its float vector (blob_to_vector); floats are modelled as reals. -/
structure ChunkRow where
  id : Nat
  project_path : String
  file_path : String
  content : String
  language : String
  chunk_type : String
  name : String
  parent_name : Option String
  start_line : Nat
  end_line : Nat
  embedding : Option (List ℝ)
  ftsTokens : List String

/-- A row of the components table (ctype is the column named type). -/
structure ComponentRow where
  project_path : String
  name : String
  ctype : String
  file_path : String
  embedding : Option (List ℝ)

/-- The persisted store.  initialized records whether the schema (the
tables) exists; executing a query against an uninitialized store raises
sqlite3.OperationalError in the source. -/
structure DB where
  initialized : Bool
  symbols : List SymbolRow
  code_chunks : List ChunkRow
  components : List ComponentRow

/-! ## symbol_search -/

/-- One result dict of symbol_search. -/
structure SymResult where
  rtype : String
  name : String
  symbol_type : String
  file_path : String
  line : Nat
  parent : Option String
  language : String
  content : String
  score : ℚ
  match_type : String
deriving DecidableEq

/-- Python string slicing s[:n] (by characters). -/
def strTake (s : String) (n : Nat) : String := String.mk (s.toList.take n)

/-- The LEFT JOIN of a symbol row with code_chunks on chunk_id = id;
(r["content"] or "") gives "" when the join finds no row. -/
def joinContent (db : DB) (cid : Option Nat) : String :=
  match cid with
  | none => ""
  | some i => (((db.code_chunks.find? (fun c => c.id == i)).map ChunkRow.content).getD "")

/-- Build one symbol_search result dict from a symbols row. -/
def mkSymResult (db : DB) (s : SymbolRow) (score : ℚ) (mt : String) : SymResult :=
  { rtype := "symbol"
    name := s.symbol_name
    symbol_type := s.symbol_type
    file_path := s.file_path
    line := s.start_line
    parent := s.parent_symbol
    language := s.language
    content := strTake (joinContent db s.chunk_id) 200
    score := score
    match_type := mt }

/-- Tier 1: WHERE symbol_name = ? (SQLite = is case-sensitive), score 1.0. -/
def tier_exact (db : DB) (q : String) (limit : Nat) : List SymResult :=
  ((db.symbols.filter (fun s => s.symbol_name == q)).take limit).map
    (fun s => mkSymResult db s (mkRat 1 1) "exact")

/-- Tier 2: WHERE symbol_name LIKE q% AND symbol_name != q, score 0.8. -/
def tier_pfx (db : DB) (q : String) (limit : Nat) : List SymResult :=
  ((db.symbols.filter
      (fun s => sqlLike (q ++ "%") s.symbol_name && s.symbol_name != q)).take limit).map
    (fun s => mkSymResult db s (mkRat 8 10) "prefix")

/-- Tier 3: WHERE symbol_name LIKE %q% AND symbol_name NOT LIKE q%, score 0.5. -/
def tier_contains (db : DB) (q : String) (limit : Nat) : List SymResult :=
  ((db.symbols.filter
      (fun s => sqlLike ("%" ++ q ++ "%") s.symbol_name &&
                !sqlLike (q ++ "%") s.symbol_name)).take limit).map
    (fun s => mkSymResult db s (mkRat 5 10) "contains")

/-- Tier 4: WHERE LOWER(symbol_name) LIKE LOWER(%q%) AND symbol_name NOT
LIKE q% AND symbol_name NOT LIKE %q%, score 0.4. -/
def tier_ci (db : DB) (q : String) (limit : Nat) : List SymResult :=
  ((db.symbols.filter
      (fun s => sqlLike (lowerStr ("%" ++ q ++ "%")) (lowerStr s.symbol_name) &&
                !sqlLike (q ++ "%") s.symbol_name &&
                !sqlLike ("%" ++ q ++ "%") s.symbol_name)).take limit).map
    (fun s => mkSymResult db s (mkRat 4 10) "case_insensitive")

/-- Dedup key (name, file, line) used by symbol_search. -/
def symKey (r : SymResult) : String × String × Nat := (r.name, r.file_path, r.line)

/-- The dedup loop of symbol_search: walk the sorted results, keep a
result only if its (name, file, line) key was not seen yet. -/
def dedupByKey : List SymResult → List (String × String × Nat) → List SymResult
  | [], _ => []
  | r :: rs, seen =>
    if symKey r ∈ seen then dedupByKey rs seen
    else r :: dedupByKey rs (symKey r :: seen)

/-- Descending-score order used for symbol results; Python's stable sort
with key -score is modelled by a stable insertion sort under this
relation. -/
def symGE (a b : SymResult) : Prop := b.score ≤ a.score

instance : DecidableRel symGE := fun a b => inferInstanceAs (Decidable (b.score ≤ a.score))

/-- The concatenated results of the four tiered queries: each later
tier runs only if fewer than limit results were collected so far, and
asks only for the remaining capacity. -/
def symPool (db : DB) (q : String) (limit : Nat) : List SymResult :=
  let r1 := tier_exact db q limit
  let r2 := if r1.length < limit then tier_pfx db q (limit - r1.length) else []
  let r12 := r1 ++ r2
  let r3 := if r12.length < limit then tier_contains db q (limit - r12.length) else []
  let r123 := r12 ++ r3
  let r4 := if r123.length < limit then tier_ci db q (limit - r123.length) else []
  r123 ++ r4

/-- symbol_search: the four tiered queries, then a stable sort by
descending score, dedup by (name, file, line), and truncation to
limit. -/
def symbol_search (db : DB) (q : String) (limit : Nat) : List SymResult :=
  (dedupByKey (List.insertionSort symGE (symPool db q limit)) []).take limit

/-! ## text_search -/

/-- One result dict of text_search.  Chunk results carry chunk_type,
line and highlight; component results carry comp_type only (so reading
chunk_type / line / highlight from them yields the dict.get default). -/
structure TxtResult where
  rtype : String
  name : String
  file_path : String
  chunk_type : Option String
  comp_type : Option String
  line : Option Nat
  highlight : Option String
  score : ℚ
deriving DecidableEq

/-- FTS5 result for a chunk (score 1.0).  The highlight() decoration is
not modelled: the field carries the raw content, truncated like the
source ([:200]). -/
def ftsResult (c : ChunkRow) : TxtResult :=
  { rtype := "code_chunk"
    name := c.name
    file_path := c.file_path
    chunk_type := some c.chunk_type
    comp_type := none
    line := some c.start_line
    highlight := some (strTake c.content 200)
    score := mkRat 1 1 }

/-- LIKE-fallback result for a chunk (score 0.6, highlight content[:100]). -/
def likeResult (c : ChunkRow) : TxtResult :=
  { rtype := "code_chunk"
    name := c.name
    file_path := c.file_path
    chunk_type := some c.chunk_type
    comp_type := none
    line := some c.start_line
    highlight := some (strTake c.content 100)
    score := mkRat 6 10 }

/-- Component result (score 0.8). -/
def compResult (c : ComponentRow) : TxtResult :=
  { rtype := "component"
    name := c.name
    file_path := c.file_path
    chunk_type := none
    comp_type := some c.ctype
    line := none
    highlight := none
    score := mkRat 8 10 }

/-- The fallback loop of text_search: append each LIKE row unless some
already-collected result has the same file_path and line. -/
def likeFold : List ChunkRow → List TxtResult → List TxtResult
  | [], acc => acc
  | c :: cs, acc =>
    if acc.any (fun x => x.file_path == c.file_path && x.line == some c.start_line) then
      likeFold cs acc
    else likeFold cs (acc ++ [likeResult c])

/-- The FTS stage of text_search (modelled as single-term token
membership), score 1.0. -/
def ftsPart (db : DB) (q : String) (limit : Nat) : List TxtResult :=
  ((db.code_chunks.filter (fun c => q ∈ c.ftsTokens)).take limit).map ftsResult

/-- The LIKE-fallback stage of text_search: runs only if capacity
remains, asks for the remaining capacity, and appends rows not already
present at the same (file, line). -/
def likePart (db : DB) (q : String) (limit : Nat) (r1 : List TxtResult) : List TxtResult :=
  if r1.length < limit then
    likeFold
      ((db.code_chunks.filter
          (fun c => sqlLike ("%" ++ q ++ "%") c.content ||
                    sqlLike ("%" ++ q ++ "%") c.name)).take (limit - r1.length))
      r1
  else r1

/-- The component stage of text_search: a LIKE scan of the component
registry, appended without dedup and with the full limit, as in the
source. -/
def compPart (db : DB) (q : String) (limit : Nat) : List TxtResult :=
  ((db.components.filter
      (fun c => sqlLike ("%" ++ q ++ "%") c.name ||
                sqlLike ("%" ++ q ++ "%") c.file_path ||
                sqlLike ("%" ++ q ++ "%") c.ctype)).take limit).map compResult

/-- text_search: FTS match over chunks, then the LIKE fallback, then
the component registry scan. -/
def text_search (db : DB) (q : String) (limit : Nat) : List TxtResult :=
  likePart db q limit (ftsPart db q limit) ++ compPart db q limit

/-! ## cosine similarity and vector_search

Floats are idealized as real numbers here because math.sqrt leaves the
rationals.  vector_search's two leading effects — the Ollama
availability probe and embedding the query text — are network calls;
they are modelled by the available flag and the query_vec parameter
(the decoded query embedding). -/

/-- Dot product: sum(x * y for x, y in zip(a, b)).  Note zip truncates
to the shorter vector, exactly as Python's zip does. -/
noncomputable def dotProd (a b : List ℝ) : ℝ := (List.zipWith (fun x y => x * y) a b).sum

/-- Euclidean norm: math.sqrt(sum(x * x for x in a)). -/
noncomputable def normOf (a : List ℝ) : ℝ := Real.sqrt ((a.map (fun x => x * x)).sum)

/-- cosine_similarity from the source: 0.0 when either norm is zero,
otherwise dot / (norm_a * norm_b). -/
noncomputable def cosine_similarity (a b : List ℝ) : ℝ :=
  if normOf a = 0 ∨ normOf b = 0 then 0 else dotProd a b / (normOf a * normOf b)

/-- One result dict of vector_search.  Component results carry name and
comp_type; chunk results carry chunk_type and content; neither carries
a line, so downstream .get reads yield the defaults. -/
structure VecResult where
  rtype : String
  name : Option String
  comp_type : Option String
  chunk_type : Option String
  file_path : String
  content : Option String
  score : ℝ

/-- SELECT ... WHERE embedding IS NOT NULL followed by the Python
truthiness check if r["embedding"] (an empty blob is also skipped). -/
def hasEmb (e : Option (List ℝ)) : Bool :=
  match e with
  | some v => !v.isEmpty
  | none => false

/-- Descending order on real scores (Python sort with reverse=True). -/
def vecGE (a b : VecResult) : Prop := b.score ≤ a.score

noncomputable instance : DecidableRel vecGE := fun _ _ => Classical.dec _

/-- The component scan of vector_search. -/
noncomputable def vecComponentResults (query_vec : List ℝ) (db : DB) : List VecResult :=
  (db.components.filter (fun c => hasEmb c.embedding)).map
    (fun c => { rtype := "component", name := some c.name, comp_type := some c.ctype,
                chunk_type := none, file_path := c.file_path, content := none,
                score := cosine_similarity query_vec (c.embedding.getD []) })

/-- The chunk scan of vector_search. -/
noncomputable def vecChunkResults (query_vec : List ℝ) (db : DB) : List VecResult :=
  (db.code_chunks.filter (fun c => hasEmb c.embedding)).map
    (fun c => { rtype := "code_chunk", name := none, comp_type := none,
                chunk_type := some c.chunk_type, file_path := c.file_path,
                content := some (strTake c.content 100),
                score := cosine_similarity query_vec (c.embedding.getD []) })

/-- vector_search: empty when the provider probe fails; otherwise score
every stored component/chunk embedding by cosine similarity against the
query vector, sort by descending score (stable), truncate. -/
noncomputable def vector_search (available : Bool) (query_vec : List ℝ) (db : DB)
    (limit : Nat) : List VecResult :=
  if available then
    (List.insertionSort vecGE
      (vecComponentResults query_vec db ++ vecChunkResults query_vec db)).take limit
  else []

/-! ## hybrid_search

hybrid_search consumes the three primitives' result dicts.  The
semantic results come from vector_search, whose scores are cosine
values of externally produced embeddings; they cross into hybrid_search
as an opaque list of result dicts (SemResult below, with the fields
hybrid_search reads).  hybrid_search takes that list as a parameter;
when the provider is unavailable vector_search returns [], so the
theorems below instantiate the parameter with []. -/

/-- A vector_search result dict as read by hybrid_search. -/
structure SemResult where
  rtype : String
  name : Option String
  chunk_type : Option String
  file_path : String
  content : Option String
  score : ℚ
deriving DecidableEq

/-- The per-signal score record kept for each (file, line) key. -/
structure Scores where
  semantic : ℚ
  symbol : ℚ
  fulltext : ℚ
deriving DecidableEq

/-- One entry of the all_results dict. -/
structure HEntry where
  rtype : String
  name : String
  file_path : String
  line : Option Nat
  chunk_type : Option String
  content : String
  scores : Scores
  match_types : List String
deriving DecidableEq

/-- One final result dict of hybrid_search. -/
structure HResult where
  rtype : String
  name : String
  file_path : String
  line : Option Nat
  chunk_type : Option String
  content : String
  score : ℚ
  breakdown : Scores
  match_types : List String
deriving DecidableEq

/-- The weights dict.  Callers either pass a full dict or None (which
selects SEARCH_WEIGHTS), so the .get defaults in the source never fire
on these fields. -/
structure Weights where
  semantic : ℚ
  symbol : ℚ
  fulltext : ℚ

/-- Module constant SEARCH_WEIGHTS = semantic 0.4, symbol 0.35,
fulltext 0.25. -/
def SEARCH_WEIGHTS : Weights :=
  { semantic := mkRat 4 10, symbol := mkRat 35 100, fulltext := mkRat 25 100 }

/-- Python dicts preserve insertion order; all_results is modelled as
an association list with at most one entry per key.  upsertEntry models
the source's create-if-absent followed by in-place mutation. -/
def upsertEntry (m : List (String × HEntry)) (k : String) (init : HEntry)
    (f : HEntry → HEntry) : List (String × HEntry) :=
  if m.any (fun p => p.1 == k) then
    m.map (fun p => if p.1 == k then (p.1, f p.2) else p)
  else m ++ [(k, f init)]

/-- f-string key file_path:line as built for symbol results. -/
def symResKey (r : SymResult) : String := r.file_path ++ ":" ++ toString r.line

/-- Merging one symbol result: create the entry if absent, then
overwrite the symbol score and append the match type. -/
def addSym (m : List (String × HEntry)) (r : SymResult) : List (String × HEntry) :=
  upsertEntry m (symResKey r)
    { rtype := r.rtype, name := r.name, file_path := r.file_path, line := some r.line,
      chunk_type := some r.symbol_type, content := strTake r.content 200,
      scores := ⟨0, 0, 0⟩, match_types := [] }
    (fun e => { e with scores.symbol := r.score,
                       match_types := e.match_types ++ ["symbol:" ++ r.match_type] })

/-- f-string key for text results: component dicts have no line key so
r.get(line, 0) yields 0. -/
def txtResKey (r : TxtResult) : String := r.file_path ++ ":" ++ toString (r.line.getD 0)

/-- Merging one full-text result. -/
def addTxt (m : List (String × HEntry)) (r : TxtResult) : List (String × HEntry) :=
  upsertEntry m (txtResKey r)
    { rtype := r.rtype, name := r.name, file_path := r.file_path, line := r.line,
      chunk_type := r.chunk_type, content := strTake (r.highlight.getD "") 200,
      scores := ⟨0, 0, 0⟩, match_types := [] }
    (fun e => { e with scores.fulltext := r.score,
                       match_types := e.match_types ++ ["fulltext"] })

/-- f-string key for semantic results: their dicts never have a line
key, so the key always ends in :0. -/
def semResKey (r : SemResult) : String := r.file_path ++ ":0"

/-- Merging one semantic result. -/
def addSem (m : List (String × HEntry)) (r : SemResult) : List (String × HEntry) :=
  upsertEntry m (semResKey r)
    { rtype := r.rtype, name := r.name.getD "", file_path := r.file_path, line := none,
      chunk_type := r.chunk_type, content := strTake (r.content.getD "") 200,
      scores := ⟨0, 0, 0⟩, match_types := [] }
    (fun e => { e with scores.semantic := r.score,
                       match_types := e.match_types ++ ["semantic"] })

/-- Steps 1-3 of hybrid_search: fold the three result lists into the
keyed dict, in source order (symbol, fulltext, semantic). -/
def hybrid_merge (symRes : List SymResult) (txtRes : List TxtResult)
    (semRes : List SemResult) : List (String × HEntry) :=
  semRes.foldl addSem (txtRes.foldl addTxt (symRes.foldl addSym []))

/-- match_count: how many signals are strictly positive. -/
def countPos (s : Scores) : Nat :=
  (if 0 < s.semantic then 1 else 0) + (if 0 < s.symbol then 1 else 0) +
    (if 0 < s.fulltext then 1 else 0)

/-- Python round(x, 3).  Modelled as rounding x*1000 to an integer;
Python rounds float ties to even, but no value in this development sits
on a tie, so Mathlib's round is used. -/
def round3 (x : ℚ) : ℚ := ((round (x * 1000) : ℤ) : ℚ) / 1000

/-- Step 4 of hybrid_search: the weighted score, the multi-signal boost
1 + 0.1 * (match_count - 1), and the rounded result dict. -/
def finalize (w : Weights) (e : HEntry) : HResult :=
  let fs := e.scores.semantic * w.semantic + e.scores.symbol * w.symbol +
    e.scores.fulltext * w.fulltext
  let mc := countPos e.scores
  let fs2 := if 1 < mc then fs * (1 + (mkRat 1 10) * ((mc : ℚ) - 1)) else fs
  { rtype := e.rtype, name := e.name, file_path := e.file_path, line := e.line,
    chunk_type := e.chunk_type, content := e.content, score := round3 fs2,
    breakdown := ⟨round3 e.scores.semantic, round3 e.scores.symbol, round3 e.scores.fulltext⟩,
    match_types := e.match_types }

/-- Descending order on final hybrid scores. -/
def hGE (a b : HResult) : Prop := b.score ≤ a.score

instance : DecidableRel hGE := fun a b => inferInstanceAs (Decidable (b.score ≤ a.score))

/-- Steps 2-5 of hybrid_search given the three primitives' outputs:
merge, weight, boost, sort descending (stable), truncate. -/
def hybrid_rank (symRes : List SymResult) (txtRes : List TxtResult)
    (semRes : List SemResult) (w : Weights) (limit : Nat) : List HResult :=
  (List.insertionSort hGE
    ((hybrid_merge symRes txtRes semRes).map (fun p => finalize w p.2))).take limit

/-- hybrid_search: run symbol and text search with 2*limit candidates
each, take the semantic results as a parameter (see above), and rank.
No validation of the weights is performed anywhere. -/
def hybrid_search (db : DB) (q : String) (limit : Nat) (w : Weights)
    (semRes : List SemResult) : List HResult :=
  hybrid_rank (symbol_search db q (limit * 2)) (text_search db q (limit * 2)) semRes w limit

/-! ## Error behaviour against an uninitialized store.

symbol_search executes its queries inside try/finally with no except
clause, so a missing table propagates sqlite3.OperationalError; every
query of text_search is wrapped in try/except that swallows the error;
vector_search returns [] before touching the store when the provider is
unavailable, and otherwise queries the store unprotected. -/

/-- symbol_search against a possibly-uninitialized store. -/
def symbol_searchE (db : DB) (q : String) (limit : Nat) : Except String (List SymResult) :=
  if db.initialized then .ok (symbol_search db q limit)
  else .error "no such table: symbols"

/-- text_search against a possibly-uninitialized store: every inner
query fails and is swallowed, leaving the empty result list. -/
def text_searchE (db : DB) (q : String) (limit : Nat) : List TxtResult :=
  if db.initialized then text_search db q limit else []

/-- vector_search against a possibly-uninitialized store. -/
noncomputable def vector_searchE (available : Bool) (query_vec : List ℝ) (db : DB)
    (limit : Nat) : Except String (List VecResult) :=
  if available then
    if db.initialized then .ok (vector_search available query_vec db limit)
    else .error "no such table: components"
  else .ok []

/-- hybrid_search against a possibly-uninitialized store: the
symbol_search call is not guarded, so its error propagates; the
vector_search call sits in try/except, modelled by the semE parameter
(its error collapses to an empty semantic list). -/
def hybrid_searchE (db : DB) (q : String) (limit : Nat) (w : Weights)
    (semE : Except String (List SemResult)) : Except String (List HResult) :=
  match symbol_searchE db q (limit * 2) with
  | .error e => .error e
  | .ok symRes =>
    let txtRes := text_searchE db q (limit * 2)
    let semRes := match semE with | .ok r => r | .error _ => []
    .ok (hybrid_rank symRes txtRes semRes w limit)

/-! ## Block extractors.

The chunkers scan with ^-anchored MULTILINE regexes; each pattern is
embedded as a per-line matcher below (character classes that could
straddle a newline inside one match, such as a parameter list written
over several lines, are modelled as single-line, and \s inside a line
is any whitespace character).  A matcher returns the captured name when
the pattern matches at the start of the line. -/

/-- The CodeChunk dataclass. -/
structure CodeChunk where
  content : String
  chunk_type : String
  name : String
  start_line : Nat
  end_line : Nat
  parent_name : Option String
  language : String
  symbols : List String
deriving DecidableEq

/-- Python/JS regex word character \w (ASCII view). -/
def isWordChar (c : Char) : Bool := c.isAlphanum || c == '_'

/-- Match a literal string at the head of the input. -/
def pLit (pre : String) (s : List Char) : Option (List Char) :=
  if pre.toList.isPrefixOf s then some (s.drop pre.toList.length) else none

/-- One-or-more whitespace: \s+ . -/
def pWs1 (s : List Char) : Option (List Char) :=
  match s with
  | c :: rest => if c.isWhitespace then some (rest.dropWhile Char.isWhitespace) else none
  | [] => none

/-- Zero-or-more whitespace: \s* . -/
def pWs0 (s : List Char) : List Char := s.dropWhile Char.isWhitespace

/-- Greedy \w+ with its captured text. -/
def pWord (s : List Char) : Option (String × List Char) :=
  let w := s.takeWhile isWordChar
  if w.isEmpty then none else some (String.mk w, s.drop w.length)

/-- An optional group (?:...)? . -/
def pOpt (f : List Char → Option (List Char)) (s : List Char) : List Char := (f s).getD s

/-- First-match alternation over literals: (?:a|b|...). -/
def pAlt : List String → List Char → Option (List Char)
  | [], _ => none
  | w :: ws, s =>
    match pLit w s with
    | some r => some r
    | none => pAlt ws s

/-- A keyword followed by \s+ . -/
def pTok (w : String) (s : List Char) : Option (List Char) := (pLit w s).bind pWs1

/-- An optional keyword-plus-\s+ group. -/
def pOptTok (w : String) (s : List Char) : List Char := pOpt (pTok w) s

/-- Alternation of keyword-plus-\s+ literals: (?:public\s+|private\s+|...). -/
def pAltToks : List String → List Char → Option (List Char)
  | [], _ => none
  | w :: rest, s =>
    match pTok w s with
    | some r => some r
    | none => pAltToks rest s

/-- An optional pAltToks group. -/
def pOptAlts (ws : List String) (s : List Char) : List Char := (pAltToks ws s).getD s

/-! TypeScript patterns (TypeScriptChunker.PATTERNS, in dict order). -/

/-- function: (export\s+)?(async\s+)?function\s+(\w+). -/
def m_ts_function (line : String) : Option String :=
  let s := pOptTok "async" (pOptTok "export" line.toList)
  (pTok "function" s).bind (fun t => (pWord t).map Prod.fst)

/-- The optional return-type group (?::\s*\w+(?:<[^>]+>)?)? of the
arrow-function pattern. -/
def m_ts_rettype (t : List Char) : Option (List Char) :=
  (pLit ":" t).bind fun u =>
  (pWord (pWs0 u)).map fun p =>
  pOpt (fun x =>
    (pLit "<" x).bind fun y =>
      let w := y.takeWhile (fun c => c != '>')
      if w.isEmpty then none else pLit ">" (y.drop w.length)) p.2

/-- arrow_function: (export\s+)?(const|let|var)\s+(\w+)\s*=\s*(async\s*)?
followed by a (single-line) parameter list, an optional return type and
an arrow. -/
def m_ts_arrow (line : String) : Option String :=
  ((pAlt ["const", "let", "var"] (pOptTok "export" line.toList)).bind fun s1 =>
   (pWs1 s1).bind fun s2 =>
   (pWord s2).bind fun p =>
   (pLit "=" (pWs0 p.2)).bind fun s4 =>
   let s5 := pOpt (fun t => (pLit "async" t).map pWs0) (pWs0 s4)
   (pLit "(" s5).bind fun s6 =>
   (pLit ")" (s6.dropWhile (fun c => c != ')'))).bind fun s7 =>
   (pLit "=>" (pWs0 (pOpt m_ts_rettype (pWs0 s7)))).map fun _ => p.1)

/-- class: (export\s+)?(abstract\s+)?class\s+(\w+). -/
def m_ts_class (line : String) : Option String :=
  let s := pOptTok "abstract" (pOptTok "export" line.toList)
  (pTok "class" s).bind (fun t => (pWord t).map Prod.fst)

/-- interface: (export\s+)?(interface|type)\s+(\w+). -/
def m_ts_interface (line : String) : Option String :=
  ((pAlt ["interface", "type"] (pOptTok "export" line.toList)).bind pWs1).bind
    (fun t => (pWord t).map Prod.fst)

/-- The component name shape [A-Z]\w+ (an upper-case letter followed by
at least one word character). -/
def isUpperWordName (nm : String) : Bool :=
  match nm.toList with
  | c :: _ :: _ => 'A' ≤ c && c ≤ 'Z'
  | _ => false

/-- component: (export\s+)?(const|function)\s+([A-Z]\w+)\s*[=:] followed
by optional React wrappers that always match and are dropped here. -/
def m_ts_component (line : String) : Option String :=
  ((pAlt ["const", "function"] (pOptTok "export" line.toList)).bind fun s1 =>
   (pWs1 s1).bind fun s2 =>
   (pWord s2).bind fun p =>
   if isUpperWordName p.1 then (pAlt ["=", ":"] (pWs0 p.2)).map (fun _ => p.1)
   else none)

/-- The hook name shape use[A-Z]\w+ . -/
def isHookName (nm : String) : Bool :=
  match nm.toList with
  | 'u' :: 's' :: 'e' :: c :: _ :: _ => 'A' ≤ c && c ≤ 'Z'
  | _ => false

/-- hook: (export\s+)?(const|function)\s+(use[A-Z]\w+). -/
def m_ts_hook (line : String) : Option String :=
  ((pAlt ["const", "function"] (pOptTok "export" line.toList)).bind fun s1 =>
   (pWs1 s1).bind fun s2 =>
   (pWord s2).bind fun p =>
   if isHookName p.1 then some p.1 else none)

/-- export_default: export\s+default\s+(function\s+)?(\w+)? — the name
group is optional; a nameless match is skipped by the chunk loop, so
the matcher yields none for it. -/
def m_ts_export_default (line : String) : Option String :=
  ((pTok "export" line.toList).bind fun s1 =>
   (pTok "default" s1).bind fun s2 =>
   (pWord (pOpt (pTok "function") s2)).map Prod.fst)

/-- TypeScriptChunker.PATTERNS in dict order. -/
def tsPatterns : List (String × (String → Option String)) :=
  [("function", m_ts_function), ("arrow_function", m_ts_arrow), ("class", m_ts_class),
   ("interface", m_ts_interface), ("component", m_ts_component), ("hook", m_ts_hook),
   ("export_default", m_ts_export_default)]

/-! Swift patterns (SwiftChunker.PATTERNS, in dict order). -/

/-- struct: (public\s+|private\s+|internal\s+|fileprivate\s+)?struct\s+(\w+). -/
def m_sw_struct (line : String) : Option String :=
  (pTok "struct" (pOptAlts ["public", "private", "internal", "fileprivate"] line.toList)).bind
    (fun t => (pWord t).map Prod.fst)

/-- class: modifiers, then (final\s+)?class\s+(\w+). -/
def m_sw_class (line : String) : Option String :=
  (pTok "class"
      (pOptTok "final" (pOptAlts ["public", "private", "internal", "fileprivate"] line.toList))).bind
    (fun t => (pWord t).map Prod.fst)

/-- The attribute loop (?:@\w+\s+)* of the Swift function pattern; the
fuel argument (the remaining input length suffices) keeps the
definition structurally recursive. -/
def pAttrs : Nat → List Char → List Char
  | 0, s => s
  | fuel + 1, s =>
    match (pLit "@" s).bind (fun t => (pWord t).bind (fun p => pWs1 p.2)) with
    | some r => pAttrs fuel r
    | none => s

/-- function: (\s*)(modifiers)?(static\s+)?(@\w+\s+)*func\s+(\w+). -/
def m_sw_function (line : String) : Option String :=
  let s0 := pWs0 line.toList
  let s1 := pOptTok "static" (pOptAlts ["public", "private", "internal", "fileprivate"] s0)
  (pTok "func" (pAttrs s1.length s1)).bind (fun t => (pWord t).map Prod.fst)

/-- protocol: (public\s+|private\s+)?protocol\s+(\w+). -/
def m_sw_protocol (line : String) : Option String :=
  (pTok "protocol" (pOptAlts ["public", "private"] line.toList)).bind
    (fun t => (pWord t).map Prod.fst)

/-- extension: (public\s+|private\s+)?extension\s+(\w+). -/
def m_sw_extension (line : String) : Option String :=
  (pTok "extension" (pOptAlts ["public", "private"] line.toList)).bind
    (fun t => (pWord t).map Prod.fst)

/-- enum: (public\s+|private\s+|internal\s+)?enum\s+(\w+). -/
def m_sw_enum (line : String) : Option String :=
  (pTok "enum" (pOptAlts ["public", "private", "internal"] line.toList)).bind
    (fun t => (pWord t).map Prod.fst)

/-- property: (\s*)(public\s+|private\s+)?(static\s+)?(var|let)\s+(\w+)\s*: . -/
def m_sw_property (line : String) : Option String :=
  ((pAltToks ["var", "let"]
      (pOptTok "static" (pOptAlts ["public", "private"] (pWs0 line.toList)))).bind fun s3 =>
   (pWord s3).bind fun p =>
   (pLit ":" (pWs0 p.2)).map fun _ => p.1)

/-- SwiftChunker.PATTERNS in dict order. -/
def swiftPatterns : List (String × (String → Option String)) :=
  [("struct", m_sw_struct), ("class", m_sw_class), ("function", m_sw_function),
   ("protocol", m_sw_protocol), ("extension", m_sw_extension), ("enum", m_sw_enum),
   ("property", m_sw_property)]

/-! Python patterns (PythonChunker.PATTERNS). -/

/-- class: ^class\s+(\w+). -/
def m_py_class (line : String) : Option String :=
  (pTok "class" line.toList).bind (fun t => (pWord t).map Prod.fst)

/-- The def\s+(\w+)\s*\( tail shared by the two function patterns. -/
def m_py_def_core (s : List Char) : Option String :=
  (pTok "def" s).bind fun t =>
  (pWord t).bind fun p =>
  (pLit "(" (pWs0 p.2)).map fun _ => p.1

/-- function: (@\w+.*\n)*def\s+(\w+)\s*\( — the decorator chain is
handled by chain_start; this matcher recognizes the def line itself,
which the ^ anchor forces to start in column 0. -/
def m_py_def (line : String) : Option String := m_py_def_core line.toList

/-- async_function: (@\w+.*\n)*async\s+def\s+(\w+)\s*\( . -/
def m_py_async_def (line : String) : Option String :=
  (pTok "async" line.toList).bind m_py_def_core

/-- A decorator line @\w+.* . -/
def decoLine (line : String) : Bool :=
  ((pLit "@" line.toList).bind (fun t => (pWord t).map Prod.fst)).isSome

/-- PythonChunker.PATTERNS in dict order (used by _extract_symbols). -/
def pyPatterns : List (String × (String → Option String)) :=
  [("function", m_py_def), ("async_function", m_py_async_def), ("class", m_py_class)]

/-! Line splitting, block ends, candidates and the chunk loops. -/

/-- content.split(newline), with the usual empty trailing piece. -/
def splitNl : List Char → List (List Char)
  | [] => [[]]
  | '\n' :: rest => [] :: splitNl rest
  | c :: rest =>
    match splitNl rest with
    | [] => [[c]]
    | h :: t => (c :: h) :: t

/-- The line list of a content string. -/
def linesOf (s : String) : List String := (splitNl s.toList).map String.mk

/-- newline.join(lines[s : e + 1]). -/
def sliceJoin (lines : List String) (s e : Nat) : String :=
  String.intercalate "\n" ((lines.drop s).take (e + 1 - s))

/-- content.count(newline) + 1 is the source's line count for the
whole-file fallback chunk. -/
def countNl (s : String) : Nat := s.toList.count '\n'

/-- Scan one line of _find_block_end: braces adjust the counter and an
opening brace marks the scan as started. -/
def braceScanLine (line : String) (cnt : Int) (started : Bool) : Int × Bool :=
  line.toList.foldl
    (fun acc c =>
      if c == '{' then (acc.1 + 1, true)
      else if c == '}' then (acc.1 - 1, acc.2) else acc)
    (cnt, started)

/-- The scan loop of _find_block_end over the remaining line indices;
falling off the end caps the span at min(start + 50, len - 1). -/
def findBlockEndGo (lines : List String) (start : Nat) : List Nat → Int → Bool → Nat
  | [], _, _ => min (start + 50) (lines.length - 1)
  | i :: rest, cnt, started =>
    let p := braceScanLine (lines.getD i "") cnt started
    if p.2 && p.1 == 0 then i else findBlockEndGo lines start rest p.1 p.2

/-- _find_block_end of the bracket-delimited chunkers (TypeScript and
Swift share this code verbatim). -/
def find_block_end (lines : List String) (start : Nat) : Nat :=
  findBlockEndGo lines start (List.range' start (lines.length - start)) 0 false

/-- Python indentation: len(line) - len(line.lstrip()). -/
def indentOf (line : String) : Nat :=
  line.length - (line.toList.dropWhile Char.isWhitespace).length

/-- The scan loop of _find_python_block_end: skip blank/comment lines;
the block ends just before the first line whose indentation falls back
to the base. -/
def findPyEndGo (lines : List String) (base : Nat) : List Nat → Nat
  | [] => lines.length - 1
  | i :: rest =>
    let line := lines.getD i ""
    let stripped := line.toList.dropWhile Char.isWhitespace
    if stripped.isEmpty || stripped.headD ' ' == '#' then findPyEndGo lines base rest
    else if line.length - stripped.length ≤ base then i - 1
    else findPyEndGo lines base rest

/-- _find_python_block_end. -/
def find_python_block_end (lines : List String) (start : Nat) : Nat :=
  if lines.length ≤ start then start
  else findPyEndGo lines (indentOf (lines.getD start ""))
    (List.range' (start + 1) (lines.length - (start + 1)))

/-- A chunk candidate: (chunk_type, name, start_line, end_line) plus
the parent class of the Python chunker's 5-tuples. -/
structure Cand where
  kind : String
  name : String
  s : Nat
  e : Nat
  parent : Option String
deriving DecidableEq

/-- The candidates of the bracket chunkers: every pattern, in dict
order, matched against every line, in position order. -/
def patCands (pats : List (String × (String → Option String)))
    (lines : List String) : List Cand :=
  pats.flatMap (fun kp =>
    (List.range lines.length).filterMap (fun i =>
      (kp.2 (lines.getD i "")).map (fun nm =>
        { kind := kp.1, name := nm, s := i, e := find_block_end lines i, parent := none })))

/-- The sort key (start_line, -(end - start)): start ascending, span
descending; ties keep list order because the sort below is stable, like
Python's. -/
def candLE (a b : Cand) : Prop :=
  a.s < b.s ∨ (a.s = b.s ∧ (a.s : Int) - a.e ≤ (b.s : Int) - b.e)

instance : DecidableRel candLE := fun a b => by unfold candLE; infer_instance

/-- _extract_symbols: run every pattern over the chunk text and collect
the distinct names.  Python materializes them through set(), whose
iteration order is unspecified; the model keeps first occurrences, and
nothing below depends on more than membership. -/
def extract_symbols (pats : List (String × (String → Option String)))
    (content : String) : List String :=
  (pats.flatMap (fun kp => (linesOf content).filterMap kp.2)).eraseDups

/-- Build the CodeChunk emitted for an accepted bracket candidate. -/
def mkBracketChunk (lang : String) (pats : List (String × (String → Option String)))
    (lines : List String) (c : Cand) : CodeChunk :=
  { content := sliceJoin lines c.s c.e
    chunk_type := c.kind
    name := c.name
    start_line := c.s + 1
    end_line := c.e + 1
    parent_name := none
    language := lang
    symbols := extract_symbols pats (sliceJoin lines c.s c.e) }

/-- The accept loop of the bracket chunkers: skip a candidate whose
start line is covered; accepting a candidate covers its whole span. -/
def emitBracket (lang : String) (pats : List (String × (String → Option String)))
    (lines : List String) : List Cand → List Nat → List CodeChunk
  | [], _ => []
  | c :: rest, covered =>
    if covered.contains c.s then emitBracket lang pats lines rest covered
    else mkBracketChunk lang pats lines c ::
      emitBracket lang pats lines rest (covered ++ List.range' c.s (c.e + 1 - c.s))

/-- TypeScriptChunker.chunk. -/
def ts_chunk (content : String) : List CodeChunk :=
  let lines := linesOf content
  emitBracket "typescript" tsPatterns lines
    (List.insertionSort candLE (patCands tsPatterns lines)) []

/-- SwiftChunker.chunk (the same algorithm over the Swift patterns). -/
def swift_chunk (content : String) : List CodeChunk :=
  let lines := linesOf content
  emitBracket "swift" swiftPatterns lines
    (List.insertionSort candLE (patCands swiftPatterns lines)) []

/-- First pass of PythonChunker.chunk: the class candidates. -/
def pyClassCands (lines : List String) : List Cand :=
  (List.range lines.length).filterMap (fun i =>
    (m_py_class (lines.getD i "")).map (fun nm =>
      { kind := "class", name := nm, s := i, e := find_python_block_end lines i,
        parent := none }))

/-- The start line of the decorator chain ending just above line j
(finditer's leftmost-match rule starts the function match at the first
decorator line). -/
def chain_start (lines : List String) : Nat → Nat
  | 0 => 0
  | j + 1 => if decoLine (lines.getD j "") then chain_start lines j else j + 1

/-- _find_parent_class: the first class candidate whose range strictly
contains the function's start line with strictly smaller indentation. -/
def find_parent_class (lines : List String) (funcLine : Nat) (cands : List Cand) :
    Option String :=
  (cands.find? (fun c =>
    c.kind == "class" && decide (c.s < funcLine) && decide (funcLine ≤ c.e) &&
      decide (indentOf (lines.getD c.s "") < indentOf (lines.getD funcLine "")))).map Cand.name

/-- Second pass of PythonChunker.chunk for one function pattern. -/
def pyFuncCands (m : String → Option String) (lines : List String)
    (classCands : List Cand) : List Cand :=
  (List.range lines.length).filterMap (fun j =>
    (m (lines.getD j "")).map (fun nm =>
      let st := chain_start lines j
      let par := find_parent_class lines st classCands
      { kind := if par.isSome then "method" else "function", name := nm,
        s := st, e := find_python_block_end lines st, parent := par }))

/-- Build the CodeChunk emitted for an accepted Python candidate. -/
def mkPyChunk (lines : List String) (c : Cand) : CodeChunk :=
  { content := sliceJoin lines c.s c.e
    chunk_type := c.kind
    name := c.name
    start_line := c.s + 1
    end_line := c.e + 1
    parent_name := c.parent
    language := "python"
    symbols := extract_symbols pyPatterns (sliceJoin lines c.s c.e) }

/-- The accept loop of PythonChunker.chunk: a candidate on a covered
start line is skipped unless it is a class, and only class spans mark
lines covered. -/
def emitPython (lines : List String) : List Cand → List Nat → List CodeChunk
  | [], _ => []
  | c :: rest, covered =>
    if covered.contains c.s && c.kind != "class" then emitPython lines rest covered
    else mkPyChunk lines c ::
      emitPython lines rest
        (if c.kind == "class" then covered ++ List.range' c.s (c.e + 1 - c.s) else covered)

/-- PythonChunker.chunk: classes first, then the two function patterns,
sorted by (start, -span) and filtered by the accept loop. -/
def python_chunk (content : String) : List CodeChunk :=
  let lines := linesOf content
  let cls := pyClassCands lines
  emitPython lines
    (List.insertionSort candLE
      (cls ++ (pyFuncCands m_py_def lines cls ++ pyFuncCands m_py_async_def lines cls))) []

/-- The whole-file fallback of the sync engine for unrecognized
extensions: one chunk_type file row with content[:4000], lines 1 to
content.count(newline) + 1, and no symbol rows. -/
def fallback_chunk (content : String) (name : String) (lang : String) : CodeChunk :=
  { content := strTake content 4000
    chunk_type := "file"
    name := name
    start_line := 1
    end_line := countNl content + 1
    parent_name := none
    language := lang
    symbols := [] }

/-! ## Concrete stores used by the claim theorems -/

/-- A shared physical store holding rows of project /projA only. -/
def c1DB : DB :=
  { initialized := true
    symbols := [⟨"/projA", "a.py", "alpha", "function", none, "python", 3, 5, none⟩]
    code_chunks := [⟨7, "/projA", "a.py", "def alpha(): pass", "python", "function", "alpha",
                     none, 3, 5, none, ["alpha"]⟩]
    components := [⟨"/projA", "AlphaView", "component", "src/AlphaView.tsx", none⟩] }

/-- A Python class with one indented method. -/
def c2_input : String := "class A:\n    def m(self):\n        pass"

/-- A store whose only chunk embedding has dimension 1. -/
def c3DB : DB :=
  { initialized := true
    symbols := []
    code_chunks := [⟨1, "/proj", "v.py", "def f(): pass", "python", "function", "f", none, 1, 1,
                     some [(1 : ℝ)], []⟩]
    components := [] }

/-- A store with one exactly-named symbol. -/
def c4DB : DB :=
  { initialized := true
    symbols := [⟨"/proj", "m.py", "q", "function", none, "python", 1, 2, none⟩]
    code_chunks := []
    components := [] }

/-- A store whose only symbol differs from the query just by case. -/
def c5DB : DB :=
  { initialized := true
    symbols := [⟨"/proj", "f.py", "Foo", "function", none, "python", 1, 2, none⟩]
    code_chunks := []
    components := [] }

/-- A store with two symbols at the same (file, line). -/
def c6DB : DB :=
  { initialized := true
    symbols := [⟨"/proj", "f.ts", "q", "function", none, "typescript", 3, 4, none⟩,
                ⟨"/proj", "f.ts", "qq", "function", none, "typescript", 3, 4, none⟩]
    code_chunks := []
    components := [] }

/-- A store where the query is a symbol prefix and a full-text token of
one (file, line) key. -/
def c8DB : DB :=
  { initialized := true
    symbols := [⟨"/proj", "a.ts", "foobar", "function", none, "typescript", 5, 9, some 1⟩]
    code_chunks := [⟨1, "/proj", "a.ts", "function foobar() ...", "typescript", "function",
                     "foobar", none, 5, 9, none, ["foo", "foobar", "function"]⟩]
    components := [] }

/-- A store file that exists but whose schema was never initialized. -/
def uninitDB : DB :=
  { initialized := false, symbols := [], code_chunks := [], components := [] }

/-! ## C1 -/

/-- C1 counterexample: every row of this shared store belongs to
project /projA, yet the searches return those rows — symbol_search,
text_search and vector_search take no project argument and apply no
project_path filter, so a search issued from any other project sharing
this physical store receives /projA rows. -/
theorem c1_counterexample :
    c1DB.symbols.all (fun s => s.project_path == "/projA") = true ∧
    c1DB.code_chunks.all (fun c => c.project_path == "/projA") = true ∧
    c1DB.components.all (fun c => c.project_path == "/projA") = true ∧
    (symbol_search c1DB "alpha" 20).map SymResult.name = ["alpha"] ∧
    (text_search c1DB "alpha" 10).map TxtResult.file_path = ["a.py", "src/AlphaView.tsx"] :=
  ⟨by decide, by decide, by decide, by decide, by decide⟩

/-- Rewrite a symbol row's project key. -/
def projSym (f : String → String) (s : SymbolRow) : SymbolRow :=
  { s with project_path := f s.project_path }

/-- Rewrite a chunk row's project key. -/
def projChunk (f : String → String) (c : ChunkRow) : ChunkRow :=
  { c with project_path := f c.project_path }

/-- Rewrite a component row's project key. -/
def projComp (f : String → String) (c : ComponentRow) : ComponentRow :=
  { c with project_path := f c.project_path }

/-- Rewrite every row's project key in a store. -/
def mapProjects (f : String → String) (db : DB) : DB :=
  { initialized := db.initialized
    symbols := db.symbols.map (projSym f)
    code_chunks := db.code_chunks.map (projChunk f)
    components := db.components.map (projComp f) }

theorem find?_content_map (f : String → String) (l : List ChunkRow) (i : Nat) :
    ((l.map (projChunk f)).find? (fun c => c.id == i)).map ChunkRow.content =
      (l.find? (fun c => c.id == i)).map ChunkRow.content := by
  induction l with
  | nil => rfl
  | cons c cs ih =>
    simp only [List.map_cons, List.find?]
    rw [show (projChunk f c).id = c.id from rfl]
    cases h : c.id == i with
    | true => rfl
    | false => exact ih

theorem joinContent_mapProjects (f : String → String) (db : DB) (cid : Option Nat) :
    joinContent (mapProjects f db) cid = joinContent db cid := by
  cases cid with
  | none => rfl
  | some i =>
    show ((((db.code_chunks.map (projChunk f)).find? (fun c => c.id == i)).map
        ChunkRow.content).getD "") = _
    rw [find?_content_map]
    rfl

theorem mkSymResult_mapProjects (f : String → String) (db : DB) (s : SymbolRow)
    (score : ℚ) (mt : String) :
    mkSymResult (mapProjects f db) (projSym f s) score mt = mkSymResult db s score mt := by
  unfold mkSymResult
  rw [show (projSym f s).chunk_id = s.chunk_id from rfl, joinContent_mapProjects]
  rfl

theorem tier_exact_mapProjects (f : String → String) (db : DB) (q : String) (limit : Nat) :
    tier_exact (mapProjects f db) q limit = tier_exact db q limit := by
  unfold tier_exact
  rw [show (mapProjects f db).symbols = db.symbols.map (projSym f) from rfl,
    List.filter_map,
    show ((fun s : SymbolRow => s.symbol_name == q) ∘ projSym f) =
      (fun s : SymbolRow => s.symbol_name == q) from rfl,
    ← List.map_take, List.map_map]
  exact List.map_congr_left fun s _ => mkSymResult_mapProjects f db s _ _

theorem tier_pfx_mapProjects (f : String → String) (db : DB) (q : String) (limit : Nat) :
    tier_pfx (mapProjects f db) q limit = tier_pfx db q limit := by
  unfold tier_pfx
  rw [show (mapProjects f db).symbols = db.symbols.map (projSym f) from rfl,
    List.filter_map,
    show ((fun s : SymbolRow => sqlLike (q ++ "%") s.symbol_name && s.symbol_name != q) ∘
        projSym f) =
      (fun s : SymbolRow => sqlLike (q ++ "%") s.symbol_name && s.symbol_name != q) from rfl,
    ← List.map_take, List.map_map]
  exact List.map_congr_left fun s _ => mkSymResult_mapProjects f db s _ _

theorem tier_contains_mapProjects (f : String → String) (db : DB) (q : String) (limit : Nat) :
    tier_contains (mapProjects f db) q limit = tier_contains db q limit := by
  unfold tier_contains
  rw [show (mapProjects f db).symbols = db.symbols.map (projSym f) from rfl,
    List.filter_map,
    show ((fun s : SymbolRow => sqlLike ("%" ++ q ++ "%") s.symbol_name &&
          !sqlLike (q ++ "%") s.symbol_name) ∘ projSym f) =
      (fun s : SymbolRow => sqlLike ("%" ++ q ++ "%") s.symbol_name &&
          !sqlLike (q ++ "%") s.symbol_name) from rfl,
    ← List.map_take, List.map_map]
  exact List.map_congr_left fun s _ => mkSymResult_mapProjects f db s _ _

theorem tier_ci_mapProjects (f : String → String) (db : DB) (q : String) (limit : Nat) :
    tier_ci (mapProjects f db) q limit = tier_ci db q limit := by
  unfold tier_ci
  rw [show (mapProjects f db).symbols = db.symbols.map (projSym f) from rfl,
    List.filter_map,
    show ((fun s : SymbolRow =>
          sqlLike (lowerStr ("%" ++ q ++ "%")) (lowerStr s.symbol_name) &&
          !sqlLike (q ++ "%") s.symbol_name &&
          !sqlLike ("%" ++ q ++ "%") s.symbol_name) ∘ projSym f) =
      (fun s : SymbolRow =>
          sqlLike (lowerStr ("%" ++ q ++ "%")) (lowerStr s.symbol_name) &&
          !sqlLike (q ++ "%") s.symbol_name &&
          !sqlLike ("%" ++ q ++ "%") s.symbol_name) from rfl,
    ← List.map_take, List.map_map]
  exact List.map_congr_left fun s _ => mkSymResult_mapProjects f db s _ _

theorem symbol_search_mapProjects (f : String → String) (db : DB) (q : String) (limit : Nat) :
    symbol_search (mapProjects f db) q limit = symbol_search db q limit := by
  unfold symbol_search
  simp only [symPool, tier_exact_mapProjects, tier_pfx_mapProjects, tier_contains_mapProjects,
    tier_ci_mapProjects]

theorem likeFold_mapProjects (f : String → String) (l : List ChunkRow) (acc : List TxtResult) :
    likeFold (l.map (projChunk f)) acc = likeFold l acc := by
  induction l generalizing acc with
  | nil => rfl
  | cons c cs ih =>
    show likeFold (projChunk f c :: cs.map (projChunk f)) acc = _
    rw [likeFold, likeFold,
      show (fun x : TxtResult => x.file_path == (projChunk f c).file_path &&
          x.line == some (projChunk f c).start_line) =
        (fun x : TxtResult => x.file_path == c.file_path &&
          x.line == some c.start_line) from rfl,
      show likeResult (projChunk f c) = likeResult c from rfl]
    by_cases h : acc.any (fun x => x.file_path == c.file_path && x.line == some c.start_line)
    · rw [if_pos h, if_pos h, ih]
    · rw [if_neg h, if_neg h, ih]

theorem ftsPart_mapProjects (f : String → String) (db : DB) (q : String) (limit : Nat) :
    ftsPart (mapProjects f db) q limit = ftsPart db q limit := by
  unfold ftsPart
  rw [show (mapProjects f db).code_chunks = db.code_chunks.map (projChunk f) from rfl,
    List.filter_map,
    show ((fun c : ChunkRow => decide (q ∈ c.ftsTokens)) ∘ projChunk f) =
      (fun c : ChunkRow => decide (q ∈ c.ftsTokens)) from rfl,
    ← List.map_take, List.map_map,
    show (ftsResult ∘ projChunk f) = ftsResult from rfl]

theorem likePart_mapProjects (f : String → String) (db : DB) (q : String) (limit : Nat)
    (r1 : List TxtResult) :
    likePart (mapProjects f db) q limit r1 = likePart db q limit r1 := by
  unfold likePart
  rw [show (mapProjects f db).code_chunks = db.code_chunks.map (projChunk f) from rfl,
    List.filter_map,
    show ((fun c : ChunkRow => sqlLike ("%" ++ q ++ "%") c.content ||
        sqlLike ("%" ++ q ++ "%") c.name) ∘ projChunk f) =
      (fun c : ChunkRow => sqlLike ("%" ++ q ++ "%") c.content ||
        sqlLike ("%" ++ q ++ "%") c.name) from rfl,
    ← List.map_take, likeFold_mapProjects]

theorem compPart_mapProjects (f : String → String) (db : DB) (q : String) (limit : Nat) :
    compPart (mapProjects f db) q limit = compPart db q limit := by
  unfold compPart
  rw [show (mapProjects f db).components = db.components.map (projComp f) from rfl,
    List.filter_map,
    show ((fun c : ComponentRow => sqlLike ("%" ++ q ++ "%") c.name ||
        sqlLike ("%" ++ q ++ "%") c.file_path || sqlLike ("%" ++ q ++ "%") c.ctype) ∘
        projComp f) =
      (fun c : ComponentRow => sqlLike ("%" ++ q ++ "%") c.name ||
        sqlLike ("%" ++ q ++ "%") c.file_path || sqlLike ("%" ++ q ++ "%") c.ctype) from rfl,
    ← List.map_take, List.map_map,
    show (compResult ∘ projComp f) = compResult from rfl]

theorem text_search_mapProjects (f : String → String) (db : DB) (q : String) (limit : Nat) :
    text_search (mapProjects f db) q limit = text_search db q limit := by
  unfold text_search
  rw [ftsPart_mapProjects, likePart_mapProjects, compPart_mapProjects]

theorem vector_search_mapProjects (av : Bool) (qv : List ℝ) (f : String → String) (db : DB)
    (limit : Nat) :
    vector_search av qv (mapProjects f db) limit = vector_search av qv db limit := by
  unfold vector_search
  cases av with
  | false => rfl
  | true =>
    have h1 : vecComponentResults qv (mapProjects f db) = vecComponentResults qv db := by
      unfold vecComponentResults
      rw [show (mapProjects f db).components = db.components.map (projComp f) from rfl,
        List.filter_map,
        show ((fun c : ComponentRow => hasEmb c.embedding) ∘ projComp f) =
          (fun c : ComponentRow => hasEmb c.embedding) from rfl,
        List.map_map]
      rfl
    have h2 : vecChunkResults qv (mapProjects f db) = vecChunkResults qv db := by
      unfold vecChunkResults
      rw [show (mapProjects f db).code_chunks = db.code_chunks.map (projChunk f) from rfl,
        List.filter_map,
        show ((fun c : ChunkRow => hasEmb c.embedding) ∘ projChunk f) =
          (fun c : ChunkRow => hasEmb c.embedding) from rfl,
        List.map_map]
      rfl
    rw [h1, h2]

/-- C1 amended: the three search primitives never read the project_path
column — rewriting every row's project key (for example, relabelling
all rows from project A to project B) leaves every search result
unchanged, so in one shared physical store all projects' rows are
candidates for every search; in practice isolation comes only from each
project's store living in its own database file. -/
theorem c1_searches_ignore_project_key (f : String → String) (db : DB) (q : String)
    (limit : Nat) (av : Bool) (qv : List ℝ) :
    symbol_search (mapProjects f db) q limit = symbol_search db q limit ∧
    text_search (mapProjects f db) q limit = text_search db q limit ∧
    vector_search av qv (mapProjects f db) limit = vector_search av qv db limit :=
  ⟨symbol_search_mapProjects f db q limit, text_search_mapProjects f db q limit,
   vector_search_mapProjects av qv f db limit⟩

/-! ## C10 -/

/-- C10: cosine_similarity is total and division-safe — it returns 0.0
whenever either vector has zero norm (including an empty vector), and
performs the division only when both norms are non-zero, in which case
the divisor is non-zero. -/
theorem c10_cosine_division_safe (a b : List ℝ) :
    ((normOf a = 0 ∨ normOf b = 0) → cosine_similarity a b = 0) ∧
    (normOf a ≠ 0 → normOf b ≠ 0 →
      cosine_similarity a b = dotProd a b / (normOf a * normOf b) ∧
        normOf a * normOf b ≠ 0) ∧
    (a = [] → cosine_similarity a b = 0) := by
  refine ⟨fun h => ?_, fun ha hb => ?_, fun h => ?_⟩
  · simp [cosine_similarity, h]
  · rw [cosine_similarity, if_neg (by tauto)]
    exact ⟨rfl, mul_ne_zero ha hb⟩
  · subst h
    simp [cosine_similarity, normOf]

/-- C10 witness: the zero-norm branches at concrete vectors. -/
theorem c10_witness :
    cosine_similarity [] [(1 : ℝ)] = 0 ∧ cosine_similarity [(1 : ℝ), 0] [] = 0 :=
  ⟨(c10_cosine_division_safe [] [(1 : ℝ)]).1 (Or.inl (by simp [normOf])),
   (c10_cosine_division_safe [(1 : ℝ), 0] []).1 (Or.inr (by simp [normOf]))⟩

/-! ## C2 -/

/-- C2: on a class with an indented def, the Python chunker emits only
the class chunk.  The def regex is anchored at column 0, so the
indented def produces no candidate at all: nothing is ever classified
method, and no independent chunk exists for the method (its name shows
up only via the class chunk symbols — here the def name is not even
extracted, because extract_symbols reuses the same column-0 patterns). -/
theorem c2_no_method_chunk :
    python_chunk c2_input =
      [{ content := c2_input, chunk_type := "class", name := "A", start_line := 1,
         end_line := 3, parent_name := none, language := "python", symbols := ["A"] }] := by
  decide

/-! ## C7 -/

/-- C7 counterexample: symbol_search against an existing but
uninitialized store propagates the missing-table error instead of
returning an empty list. -/
theorem c7_counterexample :
    symbol_searchE uninitDB "query" 20 = .error "no such table: symbols" := rfl

/-- C7 amended: against an uninitialized store, text_search returns []
(all its statements are guarded by try/except), while symbol_search
propagates the error, vector_search propagates it exactly when the
embedding provider is available (otherwise it returns [] before
touching the store), and hybrid_search propagates the error of its
unguarded symbol_search call. -/
theorem c7_uninitialized_behaviour (db : DB) (h : db.initialized = false) (q : String)
    (limit : Nat) (w : Weights) (semE : Except String (List SemResult)) (qv : List ℝ) :
    text_searchE db q limit = [] ∧
    symbol_searchE db q limit = .error "no such table: symbols" ∧
    vector_searchE true qv db limit = .error "no such table: components" ∧
    vector_searchE false qv db limit = .ok [] ∧
    hybrid_searchE db q limit w semE = .error "no such table: symbols" := by
  refine ⟨?_, ?_, ?_, ?_, ?_⟩ <;>
    simp [text_searchE, symbol_searchE, vector_searchE, hybrid_searchE, h]

/-- C7 witness: the amended behaviour at the concrete uninitialized
store. -/
theorem c7_witness :
    uninitDB.initialized = false ∧
    text_searchE uninitDB "q" 10 = [] ∧
    hybrid_searchE uninitDB "q" 10 SEARCH_WEIGHTS (.ok []) = .error "no such table: symbols" :=
  ⟨rfl, (c7_uninitialized_behaviour uninitDB rfl "q" 10 SEARCH_WEIGHTS (.ok []) []).1,
   (c7_uninitialized_behaviour uninitDB rfl "q" 10 SEARCH_WEIGHTS (.ok []) []).2.2.2.2⟩

/-! ## C4 -/

/-- C4 counterexample: hybrid_search happily computes a non-empty
ranking under weights summing to 3; no validation rejects them at any
point. -/
theorem c4_counterexample :
    (mkRat 1 1 + mkRat 1 1 + mkRat 1 1 ≠ 1) ∧
    hybrid_search c4DB "q" 10 ⟨mkRat 1 1, mkRat 1 1, mkRat 1 1⟩ [] ≠ [] := by
  constructor
  · norm_num [Rat.mkRat_eq_div]
  · have hm : hybrid_merge (symbol_search c4DB "q" (10 * 2))
        (text_search c4DB "q" (10 * 2)) [] =
        [("m.py:1", { rtype := "symbol", name := "q", file_path := "m.py", line := some 1,
                      chunk_type := some "function", content := "",
                      scores := ⟨0, mkRat 1 1, 0⟩, match_types := ["symbol:exact"] })] := by
      decide
    simp only [hybrid_search, hybrid_rank, hm, List.map]
    simp [List.insertionSort, List.orderedInsert]

/-- C4 amended: no weight validation exists anywhere — the default
SEARCH_WEIGHTS constant does sum to 1.0, but hybrid_search computes a
ranking under every weights value it is handed, with no check and no
rejection path. -/
theorem c4_no_weight_validation :
    SEARCH_WEIGHTS.semantic + SEARCH_WEIGHTS.symbol + SEARCH_WEIGHTS.fulltext = 1 ∧
    ∀ w : Weights, hybrid_search c4DB "q" 10 w [] ≠ [] := by
  constructor
  · norm_num [SEARCH_WEIGHTS, Rat.mkRat_eq_div]
  · intro w
    have hm : hybrid_merge (symbol_search c4DB "q" (10 * 2))
        (text_search c4DB "q" (10 * 2)) [] =
        [("m.py:1", { rtype := "symbol", name := "q", file_path := "m.py", line := some 1,
                      chunk_type := some "function", content := "",
                      scores := ⟨0, mkRat 1 1, 0⟩, match_types := ["symbol:exact"] })] := by
      decide
    simp only [hybrid_search, hybrid_rank, hm, List.map]
    simp [List.insertionSort, List.orderedInsert]

/-- C4 witness: the amended theorem applied at weights summing to 3. -/
theorem c4_witness : hybrid_search c4DB "q" 10 ⟨mkRat 1 1, mkRat 1 1, mkRat 1 1⟩ [] ≠ [] :=
  c4_no_weight_validation.2 ⟨mkRat 1 1, mkRat 1 1, mkRat 1 1⟩

/-! ## C5 counterexample -/

/-- C5 counterexample: for query foo against the single symbol Foo —
a case-insensitive-only match, which the claim places in the 0.4 tier —
symbol_search returns it from the prefix tier at score 0.8, because
SQLite LIKE is ASCII case-insensitive. -/
theorem c5_counterexample :
    symbol_search c5DB "foo" 20 =
      [mkSymResult c5DB ⟨"/proj", "f.py", "Foo", "function", none, "python", 1, 2, none⟩
        (mkRat 8 10) "prefix"] ∧
    mkRat 8 10 ≠ mkRat 4 10 :=
  ⟨by decide, by decide⟩

/-! ## C6 counterexample -/

/-- C6 counterexample: two symbol results share the key (f.ts, 3); the
exact match (score 1.0) arrives first, yet the merged entry keeps the
later prefix match's 0.8 — the later, lower-scored result overwrites
the earlier, higher-scored one. -/
theorem c6_counterexample :
    (symbol_search c6DB "q" 20).map SymResult.score = [mkRat 1 1, mkRat 8 10] ∧
    (hybrid_merge (symbol_search c6DB "q" 20) (text_search c6DB "q" 20) []).map
        (fun p => p.2.scores.symbol) = [mkRat 8 10] :=
  ⟨by decide, by decide⟩

/-! ## C3 counterexample -/

/-- C3 counterexample: the stored embedding has length 1, the query
vector length 2, yet the row is not skipped: it is scored (zip
truncates the dot product to the common prefix) and returned. -/
theorem c3_counterexample :
    c3DB.code_chunks.map (fun c => (c.embedding.getD []).length) = [1] ∧
    [(1 : ℝ), 0].length = 2 ∧
    (vector_search true [(1 : ℝ), 0] c3DB 10).map VecResult.score = [1] := by
  refine ⟨by decide, by decide, ?_⟩
  have h1 : normOf [(1 : ℝ), 0] = 1 := by
    simp [normOf, Real.sqrt_eq_one]
  have h2 : normOf [(1 : ℝ)] = 1 := by
    simp [normOf, Real.sqrt_eq_one]
  have hc : cosine_similarity [(1 : ℝ), 0] [(1 : ℝ)] = 1 := by
    rw [cosine_similarity, if_neg (by rw [h1, h2]; norm_num)]
    rw [h1, h2]
    simp [dotProd]
  simp [vector_search, c3DB, hasEmb, List.insertionSort, List.orderedInsert, hc]

/-! ## C3 amended -/

/-- How many rows of the store carry an embedding. -/
def embCount (db : DB) : Nat :=
  (db.components.filter (fun c => hasEmb c.embedding)).length +
    (db.code_chunks.filter (fun c => hasEmb c.embedding)).length

instance : IsTotal VecResult vecGE := ⟨fun a b => le_total b.score a.score⟩

instance : IsTrans VecResult vecGE := ⟨fun _ _ _ h1 h2 => le_trans h2 h1⟩

/-- C3 amended: a dimension mismatch never skips a row and never
raises — when the provider is available, vector_search scores every
row that has an embedding, whatever its length (the dot product silently
zips down to the common prefix), and the output is exactly the
min(limit, number of embedded rows) best-scoring rows in descending
order. -/
theorem c3_mismatch_rows_still_scored (qv : List ℝ) (db : DB) (limit : Nat) :
    (vector_search true qv db limit).length = min limit (embCount db) ∧
    (vector_search true qv db limit).Sorted vecGE := by
  constructor
  · unfold vector_search
    rw [if_pos rfl, List.length_take, (List.perm_insertionSort vecGE _).length_eq,
      List.length_append]
    unfold vecComponentResults vecChunkResults embCount
    rw [List.length_map, List.length_map]
  · unfold vector_search
    rw [if_pos rfl]
    exact (List.sorted_insertionSort vecGE _).sublist (List.take_sublist _ _)

/-! ## C6 amended -/

/-- Dict lookup in the all_results association list. -/
def getEntry (m : List (String × HEntry)) (k : String) : Option HEntry :=
  (m.find? (fun p => p.1 == k)).map Prod.snd

theorem find?_key_cons_pos (p : String × HEntry) (ps : List (String × HEntry)) (k : String)
    (h : (p.1 == k) = true) :
    (p :: ps).find? (fun q => q.1 == k) = some p :=
  List.find?_cons_of_pos _ h

theorem find?_key_cons_neg (p : String × HEntry) (ps : List (String × HEntry)) (k : String)
    (h : (p.1 == k) = false) :
    (p :: ps).find? (fun q => q.1 == k) = ps.find? (fun q => q.1 == k) :=
  List.find?_cons_of_neg _ (by simp [h])

theorem getEntry_map_upd (m : List (String × HEntry)) (k : String) (f : HEntry → HEntry) :
    getEntry (m.map (fun p => if p.1 == k then (p.1, f p.2) else p)) k =
      (getEntry m k).map f := by
  unfold getEntry
  induction m with
  | nil => rfl
  | cons p ps ih =>
    by_cases h1 : (p.1 == k) = true
    · rw [List.map_cons, if_pos h1, find?_key_cons_pos _ _ _ h1,
        find?_key_cons_pos (p.1, f p.2) _ _ h1]
      rfl
    · have h1f : (p.1 == k) = false := by simpa using h1
      rw [List.map_cons, if_neg h1, find?_key_cons_neg _ _ _ h1f, find?_key_cons_neg _ _ _ h1f]
      exact ih

theorem getEntry_map_upd_ne (m : List (String × HEntry)) (k k2 : String) (f : HEntry → HEntry)
    (h : ¬(k2 = k)) :
    getEntry (m.map (fun p => if p.1 == k then (p.1, f p.2) else p)) k2 = getEntry m k2 := by
  unfold getEntry
  induction m with
  | nil => rfl
  | cons p ps ih =>
    by_cases h1 : (p.1 == k) = true
    · have h2 : (p.1 == k2) = false := by
        have hp : p.1 = k := by simpa using h1
        simp [hp]
        exact fun hh => h hh.symm
      rw [List.map_cons, if_pos h1, find?_key_cons_neg (p.1, f p.2) _ _ h2,
        find?_key_cons_neg _ _ _ h2]
      exact ih
    · rw [List.map_cons, if_neg h1]
      by_cases h2 : (p.1 == k2) = true
      · rw [find?_key_cons_pos _ _ _ h2, find?_key_cons_pos _ _ _ h2]
      · have h2f : (p.1 == k2) = false := by simpa using h2
        rw [find?_key_cons_neg _ _ _ h2f, find?_key_cons_neg _ _ _ h2f]
        exact ih

theorem getEntry_eq_none_of_not_any (m : List (String × HEntry)) (k : String)
    (h : m.any (fun p => p.1 == k) = false) : getEntry m k = none := by
  unfold getEntry
  rw [List.find?_eq_none.mpr]
  · rfl
  · intro p hp
    have := (List.any_eq_false.mp h) p hp
    simpa using this

theorem getEntry_isSome_of_any (m : List (String × HEntry)) (k : String)
    (h : m.any (fun p => p.1 == k) = true) : (getEntry m k).isSome := by
  unfold getEntry
  cases hf : m.find? (fun p => p.1 == k) with
  | none =>
    obtain ⟨p, hp, hpk⟩ := List.any_eq_true.mp h
    have := List.find?_eq_none.mp hf p hp
    simp [hpk] at this
  | some q => rfl

theorem getEntry_append_same (m : List (String × HEntry)) (k : String) (v : HEntry)
    (h : getEntry m k = none) : getEntry (m ++ [(k, v)]) k = some v := by
  unfold getEntry at h ⊢
  induction m with
  | nil =>
    rw [List.nil_append, find?_key_cons_pos (k, v) _ _ (by simp)]
    rfl
  | cons p ps ih =>
    by_cases h1 : (p.1 == k) = true
    · rw [find?_key_cons_pos _ _ _ h1] at h
      cases h
    · have h1f : (p.1 == k) = false := by simpa using h1
      rw [find?_key_cons_neg _ _ _ h1f] at h
      rw [List.cons_append, find?_key_cons_neg _ _ _ h1f]
      exact ih h

theorem getEntry_append_ne (m : List (String × HEntry)) (k k2 : String) (v : HEntry)
    (h : ¬(k2 = k)) : getEntry (m ++ [(k, v)]) k2 = getEntry m k2 := by
  unfold getEntry
  induction m with
  | nil =>
    rw [List.nil_append,
      find?_key_cons_neg (k, v) _ _ (by simp; exact fun hh => h hh.symm)]
  | cons p ps ih =>
    by_cases h1 : (p.1 == k2) = true
    · rw [List.cons_append, find?_key_cons_pos _ _ _ h1, find?_key_cons_pos _ _ _ h1]
    · have h1f : (p.1 == k2) = false := by simpa using h1
      rw [List.cons_append, find?_key_cons_neg _ _ _ h1f, find?_key_cons_neg _ _ _ h1f]
      exact ih

theorem getEntry_upsert_same (m : List (String × HEntry)) (k : String) (init : HEntry)
    (f : HEntry → HEntry) :
    getEntry (upsertEntry m k init f) k = some (f ((getEntry m k).getD init)) := by
  unfold upsertEntry
  by_cases hk : m.any (fun p => p.1 == k)
  · rw [if_pos hk, getEntry_map_upd]
    cases he : getEntry m k with
    | none =>
      have := getEntry_isSome_of_any m k hk
      rw [he] at this
      cases this
    | some e => rfl
  · have hkf : m.any (fun p => p.1 == k) = false := by
      simp only [Bool.not_eq_true] at hk
      exact hk
    rw [if_neg hk, getEntry_append_same _ _ _ (getEntry_eq_none_of_not_any m k hkf),
      getEntry_eq_none_of_not_any m k hkf]
    rfl

theorem getEntry_upsert_ne (m : List (String × HEntry)) (k k2 : String) (init : HEntry)
    (f : HEntry → HEntry) (h : ¬(k2 = k)) :
    getEntry (upsertEntry m k init f) k2 = getEntry m k2 := by
  unfold upsertEntry
  by_cases hk : m.any (fun p => p.1 == k)
  · rw [if_pos hk, getEntry_map_upd_ne _ _ _ _ h]
  · rw [if_neg hk, getEntry_append_ne _ _ _ _ h]

/-- C6 amended: hybrid merge keeps the last score seen per signal, not
the first/best — for symbol results (sorted descending by
symbol_search) the lowest-scoring duplicate of a key wins; the other
two signals of an entry touched only by symbol results stay 0. -/
theorem c6_last_write_wins (rs : List SymResult) (k : String) :
    (getEntry (hybrid_merge rs [] []) k).map HEntry.scores =
      ((rs.filter (fun r => symResKey r == k)).getLast?).map
        (fun r => (⟨0, r.score, 0⟩ : Scores)) := by
  show (getEntry (rs.foldl addSym []) k).map HEntry.scores = _
  induction rs using List.reverseRecOn with
  | nil => rfl
  | append_singleton rs r ih =>
    rw [List.foldl_append, List.foldl_cons, List.foldl_nil, List.filter_append]
    by_cases hk : symResKey r == k
    · have hkk : k = symResKey r := (beq_iff_eq.mp hk).symm
      subst hkk
      rw [addSym, getEntry_upsert_same,
        show (List.filter (fun r2 => symResKey r2 == symResKey r) [r]) = [r] by simp,
        List.getLast?_concat]
      cases he : getEntry (rs.foldl addSym []) (symResKey r) with
      | none => rfl
      | some e =>
        rw [he] at ih
        cases hl : (rs.filter (fun r2 => symResKey r2 == symResKey r)).getLast? with
        | none =>
          rw [hl] at ih
          simp at ih
        | some r2 =>
          rw [hl] at ih
          simp only [Option.map_some'] at ih
          have hes : e.scores = ⟨0, r2.score, 0⟩ := by injection ih
          show some ({ e.scores with symbol := r.score }) = some (⟨0, r.score, 0⟩ : Scores)
          rw [hes]
    · have hne : ¬(symResKey r = k) := by simpa using hk
      have hkf : (symResKey r == k) = false := by simpa using hk
      rw [addSym, getEntry_upsert_ne _ _ _ _ _ (fun hh => hne hh.symm),
        show (List.filter (fun r2 => symResKey r2 == k) [r]) = [] by simp [hkf],
        List.append_nil]
      exact ih

/-! ## C9 -/

theorem findBlockEndGo_ge (lines : List String) (start : Nat) (l : List Nat) (cnt : Int)
    (st : Bool) (hl : ∀ i ∈ l, start ≤ i) (hs : start < lines.length) :
    start ≤ findBlockEndGo lines start l cnt st := by
  induction l generalizing cnt st with
  | nil =>
    unfold findBlockEndGo
    exact le_min (Nat.le_add_right _ _) (by omega)
  | cons i rest ih =>
    simp only [findBlockEndGo]
    split
    · exact hl i (List.mem_cons_self _ _)
    · exact ih _ _ (fun j hj => hl j (List.mem_cons_of_mem _ hj))

theorem find_block_end_ge (lines : List String) (start : Nat) (hs : start < lines.length) :
    start ≤ find_block_end lines start :=
  findBlockEndGo_ge lines start _ 0 false
    (fun _ hi => (List.mem_range'_1.mp hi).1) hs

theorem findPyEndGo_ge (lines : List String) (base start : Nat) (l : List Nat)
    (hl : ∀ i ∈ l, start + 1 ≤ i) (hs : start < lines.length) :
    start ≤ findPyEndGo lines base l := by
  induction l with
  | nil => unfold findPyEndGo; omega
  | cons i rest ih =>
    simp only [findPyEndGo]
    split
    · exact ih (fun j hj => hl j (List.mem_cons_of_mem _ hj))
    · split
      · have := hl i (List.mem_cons_self _ _)
        omega
      · exact ih (fun j hj => hl j (List.mem_cons_of_mem _ hj))

theorem find_python_block_end_ge (lines : List String) (start : Nat) :
    start ≤ find_python_block_end lines start := by
  unfold find_python_block_end
  split
  · exact le_refl start
  · exact findPyEndGo_ge lines _ start _
      (fun i hi => (List.mem_range'_1.mp hi).1) (by omega)

theorem chain_start_le (lines : List String) (j : Nat) : chain_start lines j ≤ j := by
  induction j with
  | zero => exact le_refl 0
  | succ j ih =>
    unfold chain_start
    split
    · exact le_trans ih (Nat.le_succ j)
    · exact le_refl _

/-- Bounds for every bracket-chunker candidate. -/
theorem patCands_bounds (pats : List (String × (String → Option String)))
    (lines : List String) :
    ∀ c ∈ patCands pats lines, c.s < lines.length ∧ c.s ≤ c.e := by
  intro c hc
  unfold patCands at hc
  rw [List.mem_flatMap] at hc
  obtain ⟨kp, _, hc⟩ := hc
  rw [List.mem_filterMap] at hc
  obtain ⟨i, hi, hmap⟩ := hc
  rw [List.mem_range] at hi
  cases hm : kp.2 (lines.getD i "") with
  | none => rw [hm] at hmap; cases hmap
  | some nm =>
    rw [hm] at hmap
    cases hmap
    exact ⟨hi, find_block_end_ge lines i hi⟩

theorem pyClassCands_bounds (lines : List String) :
    ∀ c ∈ pyClassCands lines, c.s < lines.length ∧ c.s ≤ c.e := by
  intro c hc
  unfold pyClassCands at hc
  rw [List.mem_filterMap] at hc
  obtain ⟨i, hi, hmap⟩ := hc
  rw [List.mem_range] at hi
  cases hm : m_py_class (lines.getD i "") with
  | none => rw [hm] at hmap; cases hmap
  | some nm =>
    rw [hm] at hmap
    cases hmap
    exact ⟨hi, find_python_block_end_ge lines i⟩

theorem pyFuncCands_bounds (m : String → Option String) (lines : List String)
    (cls : List Cand) :
    ∀ c ∈ pyFuncCands m lines cls, c.s < lines.length ∧ c.s ≤ c.e := by
  intro c hc
  unfold pyFuncCands at hc
  rw [List.mem_filterMap] at hc
  obtain ⟨j, hj, hmap⟩ := hc
  rw [List.mem_range] at hj
  cases hm : m (lines.getD j "") with
  | none => rw [hm] at hmap; cases hmap
  | some nm =>
    rw [hm] at hmap
    cases hmap
    exact ⟨lt_of_le_of_lt (chain_start_le lines j) hj,
      find_python_block_end_ge lines (chain_start lines j)⟩

theorem emitBracket_bounds (lang : String) (pats : List (String × (String → Option String)))
    (lines : List String) (cl : List Cand) (cov : List Nat)
    (hP : ∀ c ∈ cl, c.s ≤ c.e) :
    ∀ ch ∈ emitBracket lang pats lines cl cov,
      1 ≤ ch.start_line ∧ ch.start_line ≤ ch.end_line := by
  induction cl generalizing cov with
  | nil => intro ch hch; simp [emitBracket] at hch
  | cons c rest ih =>
    intro ch hch
    rw [emitBracket] at hch
    by_cases hcov : cov.contains c.s
    · rw [if_pos hcov] at hch
      exact ih _ (fun d hd => hP d (List.mem_cons_of_mem _ hd)) ch hch
    · rw [if_neg hcov] at hch
      rcases List.mem_cons.mp hch with h | h
      · subst h
        have hce := hP c (List.mem_cons_self _ _)
        refine ⟨Nat.le_add_left 1 c.s, ?_⟩
        show c.s + 1 ≤ c.e + 1
        omega
      · exact ih _ (fun d hd => hP d (List.mem_cons_of_mem _ hd)) ch h

theorem emitPython_bounds (lines : List String) (cl : List Cand) (cov : List Nat)
    (hP : ∀ c ∈ cl, c.s ≤ c.e) :
    ∀ ch ∈ emitPython lines cl cov,
      1 ≤ ch.start_line ∧ ch.start_line ≤ ch.end_line := by
  induction cl generalizing cov with
  | nil => intro ch hch; simp [emitPython] at hch
  | cons c rest ih =>
    intro ch hch
    rw [emitPython] at hch
    by_cases hcov : cov.contains c.s && c.kind != "class"
    · rw [if_pos hcov] at hch
      exact ih _ (fun d hd => hP d (List.mem_cons_of_mem _ hd)) ch hch
    · rw [if_neg hcov] at hch
      rcases List.mem_cons.mp hch with h | h
      · subst h
        have hce := hP c (List.mem_cons_self _ _)
        refine ⟨Nat.le_add_left 1 c.s, ?_⟩
        show c.s + 1 ≤ c.e + 1
        omega
      · exact ih _ (fun d hd => hP d (List.mem_cons_of_mem _ hd)) ch h

/-- C9: every chunk produced by any extractor — the bracket-delimited
TypeScript and Swift chunkers, the indentation-delimited Python
chunker, and the whole-file fallback — has 1-indexed inclusive bounds
with end_line at or after start_line and start_line at least 1. -/
theorem c9_chunk_line_bounds (content : String) :
    (∀ ch ∈ ts_chunk content, 1 ≤ ch.start_line ∧ ch.start_line ≤ ch.end_line) ∧
    (∀ ch ∈ swift_chunk content, 1 ≤ ch.start_line ∧ ch.start_line ≤ ch.end_line) ∧
    (∀ ch ∈ python_chunk content, 1 ≤ ch.start_line ∧ ch.start_line ≤ ch.end_line) ∧
    (∀ name lang, 1 ≤ (fallback_chunk content name lang).start_line ∧
      (fallback_chunk content name lang).start_line ≤
        (fallback_chunk content name lang).end_line) := by
  refine ⟨?_, ?_, ?_, ?_⟩
  · unfold ts_chunk
    apply emitBracket_bounds
    intro c hc
    exact ((patCands_bounds tsPatterns (linesOf content)) c
      ((List.perm_insertionSort candLE _).mem_iff.mp hc)).2
  · unfold swift_chunk
    apply emitBracket_bounds
    intro c hc
    exact ((patCands_bounds swiftPatterns (linesOf content)) c
      ((List.perm_insertionSort candLE _).mem_iff.mp hc)).2
  · unfold python_chunk
    apply emitPython_bounds
    intro c hc
    have hc2 := (List.perm_insertionSort candLE _).mem_iff.mp hc
    rcases List.mem_append.mp hc2 with h | h
    · exact (pyClassCands_bounds (linesOf content) c h).2
    · rcases List.mem_append.mp h with h2 | h2
      · exact (pyFuncCands_bounds m_py_def (linesOf content) _ c h2).2
      · exact (pyFuncCands_bounds m_py_async_def (linesOf content) _ c h2).2
  · intro name lang
    refine ⟨le_refl 1, ?_⟩
    show 1 ≤ countNl content + 1
    omega

/-- C9 witness: the bounds at a concrete Python chunk. -/
theorem c9_witness :
    1 ≤ ({ content := "def f():\n    pass", chunk_type := "function", name := "f",
           start_line := 1, end_line := 2, parent_name := none, language := "python",
           symbols := ["f"] } : CodeChunk).start_line ∧
    ({ content := "def f():\n    pass", chunk_type := "function", name := "f",
       start_line := 1, end_line := 2, parent_name := none, language := "python",
       symbols := ["f"] } : CodeChunk).start_line ≤
      ({ content := "def f():\n    pass", chunk_type := "function", name := "f",
         start_line := 1, end_line := 2, parent_name := none, language := "python",
         symbols := ["f"] } : CodeChunk).end_line :=
  (c9_chunk_line_bounds "def f():\n    pass").2.2.1 _ (by decide)

/-! ## C5 amended -/

theorem char_le_iff (a b : Char) : a ≤ b ↔ a.toNat ≤ b.toNat := by
  rw [Char.le_def]
  exact UInt32.le_def

theorem char_eq_iff (a b : Char) : a = b ↔ a.toNat = b.toNat :=
  ⟨fun h => h ▸ rfl, fun h => Char.ext (UInt32.ext h)⟩

theorem char_toNat_ofNat_valid (n : Nat) (h : n.isValidChar) : (Char.ofNat n).toNat = n := by
  unfold Char.ofNat
  rw [dif_pos h]
  rfl

theorem asciiLower_toNat_of_upper (c : Char) (h : 'A' ≤ c ∧ c ≤ 'Z') :
    (asciiLower c).toNat = c.toNat + 32 := by
  unfold asciiLower
  rw [if_pos h]
  apply char_toNat_ofNat_valid
  have hz : ('Z' : Char).toNat = 90 := by decide
  have h2 : c.toNat ≤ 90 := by
    have := (char_le_iff c 'Z').mp h.2
    omega
  left
  omega

theorem asciiLower_eq_self_of_not_upper (c : Char) (h : ¬('A' ≤ c ∧ c ≤ 'Z')) :
    asciiLower c = c := by
  unfold asciiLower
  rw [if_neg h]

theorem asciiLower_idem (c : Char) : asciiLower (asciiLower c) = asciiLower c := by
  by_cases h : 'A' ≤ c ∧ c ≤ 'Z'
  · have ht := asciiLower_toNat_of_upper c h
    have ha : ('A' : Char).toNat = 65 := by decide
    have hz : ('Z' : Char).toNat = 90 := by decide
    have h65 : 65 ≤ c.toNat := by
      have := (char_le_iff 'A' c).mp h.1
      omega
    apply asciiLower_eq_self_of_not_upper
    intro hcon
    have := (char_le_iff (asciiLower c) 'Z').mp hcon.2
    omega
  · rw [asciiLower_eq_self_of_not_upper c h]
    exact asciiLower_eq_self_of_not_upper c h

theorem likeCharEq_lower (c d : Char) :
    likeCharEq (asciiLower c) (asciiLower d) = likeCharEq c d := by
  unfold likeCharEq
  rw [asciiLower_idem, asciiLower_idem]

/-- ASCII-lowering can only change a character into the range
[97, 122], so equality against characters outside the upper range and
below 97 is unaffected. -/
theorem asciiLower_eq_special (c w : Char)
    (hw : w.toNat < 65 ∨ (90 < w.toNat ∧ w.toNat < 97)) :
    asciiLower c = w ↔ c = w := by
  by_cases h : 'A' ≤ c ∧ c ≤ 'Z'
  · have ht := asciiLower_toNat_of_upper c h
    have ha : ('A' : Char).toNat = 65 := by decide
    have hz : ('Z' : Char).toNat = 90 := by decide
    have h1 := (char_le_iff 'A' c).mp h.1
    have h2 := (char_le_iff c 'Z').mp h.2
    constructor
    · intro he
      have := (char_eq_iff _ _).mp he
      exfalso
      omega
    · intro he
      subst he
      exfalso
      omega
  · rw [asciiLower_eq_self_of_not_upper c h]

theorem list_any_congr {α : Type} (l : List α) (f g : α → Bool)
    (h : ∀ a ∈ l, f a = g a) : l.any f = l.any g := by
  induction l with
  | nil => rfl
  | cons a l ih =>
    rw [List.any_cons, List.any_cons, h a (List.mem_cons_self a l),
      ih (fun b hb => h b (List.mem_cons_of_mem a hb))]

theorem likeChars_cons (c : Char) (p s : List Char) :
    likeChars (c :: p) s =
      (if c = '%' then (List.range (s.length + 1)).any (fun k => likeChars p (s.drop k))
       else if c = '_' then !s.isEmpty && likeChars p s.tail
       else !s.isEmpty && (likeCharEq c (s.headD c) && likeChars p s.tail)) := rfl

/-- LIKE over ASCII-lowered pattern and value agrees with plain LIKE:
SQLite's LIKE is already ASCII case-insensitive. -/
theorem likeChars_lower (p : List Char) : ∀ s : List Char,
    likeChars (p.map asciiLower) (s.map asciiLower) = likeChars p s := by
  induction p with
  | nil =>
    intro s
    rw [List.map_nil]
    show (s.map asciiLower).isEmpty = s.isEmpty
    cases s <;> rfl
  | cons c p ih =>
    intro s
    rw [List.map_cons, likeChars_cons, likeChars_cons]
    by_cases h1 : c = '%'
    · subst h1
      rw [if_pos (show asciiLower '%' = '%' from by decide), if_pos rfl, List.length_map]
      apply list_any_congr
      intro k _
      rw [← List.map_drop, ih]
    · have h1l : ¬(asciiLower c = '%') :=
        fun he => h1 ((asciiLower_eq_special c '%' (by left; decide)).mp he)
      rw [if_neg h1l, if_neg h1]
      by_cases h2 : c = '_'
      · subst h2
        rw [if_pos (show asciiLower '_' = '_' from by decide), if_pos rfl]
        cases s with
        | nil => rfl
        | cons d s2 =>
          rw [List.map_cons]
          show likeChars (p.map asciiLower) (s2.map asciiLower) = likeChars p s2
          exact ih s2
      · have h2l : ¬(asciiLower c = '_') :=
          fun he => h2 ((asciiLower_eq_special c '_' (by right; exact ⟨by decide, by decide⟩)).mp he)
        rw [if_neg h2l, if_neg h2]
        cases s with
        | nil => rfl
        | cons d s2 =>
          rw [List.map_cons]
          show (likeCharEq (asciiLower c) (asciiLower d) &&
              likeChars (p.map asciiLower) (s2.map asciiLower)) =
            (likeCharEq c d && likeChars p s2)
          rw [likeCharEq_lower, ih]

theorem sqlLike_lowerStr (p s : String) :
    sqlLike (lowerStr p) (lowerStr s) = sqlLike p s := by
  show likeChars (lowerStr p).toList (lowerStr s).toList = _
  rw [show (lowerStr p).toList = p.toList.map asciiLower from rfl,
    show (lowerStr s).toList = s.toList.map asciiLower from rfl]
  exact likeChars_lower p.toList s.toList

/-- The fourth tier of symbol_search can never match: its WHERE clause
demands a case-insensitive substring match while also excluding every
LIKE substring match, and LIKE is itself case-insensitive. -/
theorem tier_ci_empty (db : DB) (q : String) (limit : Nat) : tier_ci db q limit = [] := by
  have h : db.symbols.filter
      (fun s => sqlLike (lowerStr ("%" ++ q ++ "%")) (lowerStr s.symbol_name) &&
                !sqlLike (q ++ "%") s.symbol_name &&
                !sqlLike ("%" ++ q ++ "%") s.symbol_name) = [] := by
    rw [List.filter_eq_nil_iff]
    intro s _
    rw [sqlLike_lowerStr]
    cases hA : sqlLike ("%" ++ q ++ "%") s.symbol_name <;> simp [hA]
  unfold tier_ci
  rw [h]
  simp

theorem tier_exact_mem (db : DB) (q : String) (limit : Nat) (r : SymResult)
    (h : r ∈ tier_exact db q limit) :
    r.name = q ∧ r.score = mkRat 1 1 ∧ r.match_type = "exact" := by
  unfold tier_exact at h
  rw [List.mem_map] at h
  obtain ⟨s, hs, rfl⟩ := h
  have hf := List.mem_filter.mp (List.mem_of_mem_take hs)
  exact ⟨by simpa using hf.2, rfl, rfl⟩

theorem tier_pfx_mem (db : DB) (q : String) (limit : Nat) (r : SymResult)
    (h : r ∈ tier_pfx db q limit) :
    r.name ≠ q ∧ sqlLike (q ++ "%") r.name = true ∧ r.score = mkRat 8 10 ∧
      r.match_type = "prefix" := by
  unfold tier_pfx at h
  rw [List.mem_map] at h
  obtain ⟨s, hs, rfl⟩ := h
  have hf := List.mem_filter.mp (List.mem_of_mem_take hs)
  have hb := hf.2
  rw [Bool.and_eq_true] at hb
  refine ⟨?_, hb.1, rfl, rfl⟩
  simpa using hb.2

theorem tier_contains_mem (db : DB) (q : String) (limit : Nat) (r : SymResult)
    (h : r ∈ tier_contains db q limit) :
    sqlLike ("%" ++ q ++ "%") r.name = true ∧ sqlLike (q ++ "%") r.name = false ∧
      r.score = mkRat 5 10 ∧ r.match_type = "contains" := by
  unfold tier_contains at h
  rw [List.mem_map] at h
  obtain ⟨s, hs, rfl⟩ := h
  have hf := List.mem_filter.mp (List.mem_of_mem_take hs)
  have hb := hf.2
  rw [Bool.and_eq_true] at hb
  refine ⟨hb.1, ?_, rfl, rfl⟩
  simpa using hb.2

/-- Membership in the concatenated tier pool. -/
theorem mem_ite_nil {α : Type} {c : Prop} [Decidable c] {X : List α} {r : α}
    (h : r ∈ if c then X else []) : r ∈ X := by
  split at h
  · exact h
  · cases h

theorem symPool_mem (db : DB) (q : String) (limit : Nat) (r : SymResult)
    (h : r ∈ symPool db q limit) :
    r ∈ tier_exact db q limit ∨ (∃ n, r ∈ tier_pfx db q n) ∨
      (∃ n, r ∈ tier_contains db q n) := by
  simp only [symPool] at h
  rcases List.mem_append.mp h with h1 | h4
  · rcases List.mem_append.mp h1 with h2 | h3
    · rcases List.mem_append.mp h2 with he | hp
      · exact Or.inl he
      · exact Or.inr (Or.inl ⟨_, mem_ite_nil hp⟩)
    · exact Or.inr (Or.inr ⟨_, mem_ite_nil h3⟩)
  · have h5 := mem_ite_nil h4
    rw [tier_ci_empty] at h5
    cases h5

instance : IsTotal SymResult symGE := ⟨fun a b => le_total b.score a.score⟩

instance : IsTrans SymResult symGE := ⟨fun _ _ _ h1 h2 => le_trans h2 h1⟩

theorem dedupByKey_sublist (l : List SymResult) (seen : List (String × String × Nat)) :
    (dedupByKey l seen).Sublist l := by
  induction l generalizing seen with
  | nil => exact List.Sublist.refl []
  | cons r rs ih =>
    rw [dedupByKey]
    split
    · exact (ih seen).cons r
    · exact (ih _).cons₂ r

theorem dedupByKey_not_seen (l : List SymResult) (seen : List (String × String × Nat)) :
    ∀ r ∈ dedupByKey l seen, symKey r ∉ seen := by
  induction l generalizing seen with
  | nil => intro r hr; cases hr
  | cons x xs ih =>
    intro r hr
    rw [dedupByKey] at hr
    split at hr
    · exact ih seen r hr
    · rcases List.mem_cons.mp hr with h | h
      · subst h
        assumption
      · intro hmem
        exact ih _ r h (List.mem_cons_of_mem _ hmem)

theorem dedupByKey_pairwise (l : List SymResult) (seen : List (String × String × Nat)) :
    (dedupByKey l seen).Pairwise (fun a b => symKey a ≠ symKey b) := by
  induction l generalizing seen with
  | nil => exact List.Pairwise.nil
  | cons x xs ih =>
    rw [dedupByKey]
    split
    · exact ih seen
    · refine List.Pairwise.cons ?_ (ih _)
      intro b hb hEq
      exact dedupByKey_not_seen xs _ b hb (hEq ▸ List.mem_cons_self _ _)

theorem dedupByKey_keeps_max (l : List SymResult) (hs : l.Sorted symGE)
    (seen : List (String × String × Nat)) :
    ∀ r ∈ dedupByKey l seen, ∀ r2 ∈ l, symKey r2 = symKey r → r2.score ≤ r.score := by
  induction l generalizing seen with
  | nil => intro r hr; cases hr
  | cons x xs ih =>
    intro r hr r2 hr2 hk
    have hsx := (List.sorted_cons.mp hs).1
    have hst := (List.sorted_cons.mp hs).2
    rw [dedupByKey] at hr
    split at hr
    · rcases List.mem_cons.mp hr2 with h2 | h2
      · subst h2
        exfalso
        have := dedupByKey_not_seen xs seen r hr
        rw [← hk] at this
        exact this (by assumption)
      · exact ih hst seen r hr r2 h2 hk
    · rcases List.mem_cons.mp hr with h | h
      · subst h
        rcases List.mem_cons.mp hr2 with h2 | h2
        · subst h2
          exact le_refl _
        · exact hsx r2 h2
      · rcases List.mem_cons.mp hr2 with h2 | h2
        · subst h2
          exfalso
          have := dedupByKey_not_seen xs _ r h
          rw [← hk] at this
          exact this (List.mem_cons_self _ _)
        · exact ih hst _ r h r2 h2 hk

/-- C5 amended: the tiers follow SQLite's ASCII case-insensitive LIKE —
exact (case-sensitive) matches score 1.0, case-insensitive prefix
matches excluding exact score 0.8, case-insensitive substring matches
excluding case-insensitive prefix score 0.5, and the 0.4 tier is
unsatisfiable; results are sorted descending, deduplicated by
(name, file, line) keeping the best pooled score, and truncated. -/
theorem c5_tier_semantics (db : DB) (q : String) (limit : Nat) :
    (∀ r ∈ symbol_search db q limit,
      (r.name = q ∧ r.score = mkRat 1 1 ∧ r.match_type = "exact") ∨
      (r.name ≠ q ∧ sqlLike (q ++ "%") r.name = true ∧ r.score = mkRat 8 10 ∧
        r.match_type = "prefix") ∨
      (sqlLike ("%" ++ q ++ "%") r.name = true ∧ sqlLike (q ++ "%") r.name = false ∧
        r.score = mkRat 5 10 ∧ r.match_type = "contains")) ∧
    tier_ci db q limit = [] ∧
    (symbol_search db q limit).Sorted symGE ∧
    (symbol_search db q limit).Pairwise (fun a b => symKey a ≠ symKey b) ∧
    (∀ r ∈ symbol_search db q limit, ∀ r2 ∈ symPool db q limit,
      symKey r2 = symKey r → r2.score ≤ r.score) ∧
    (symbol_search db q limit).length ≤ limit := by
  have hmem : ∀ r ∈ symbol_search db q limit, r ∈ symPool db q limit := by
    intro r hr
    unfold symbol_search at hr
    exact (List.perm_insertionSort symGE _).mem_iff.mp
      ((dedupByKey_sublist _ _).mem (List.mem_of_mem_take hr))
  refine ⟨?_, tier_ci_empty db q limit, ?_, ?_, ?_, ?_⟩
  · intro r hr
    rcases symPool_mem db q limit r (hmem r hr) with h | ⟨n, h⟩ | ⟨n, h⟩
    · exact Or.inl (tier_exact_mem db q limit r h)
    · exact Or.inr (Or.inl (tier_pfx_mem db q n r h))
    · exact Or.inr (Or.inr (tier_contains_mem db q n r h))
  · exact ((List.sorted_insertionSort symGE _).sublist (dedupByKey_sublist _ _)).sublist
      (List.take_sublist _ _)
  · exact List.Pairwise.sublist (List.take_sublist _ _) (dedupByKey_pairwise _ _)
  · intro r hr r2 hr2 hk
    exact dedupByKey_keeps_max _ (List.sorted_insertionSort symGE _) [] r
      (List.mem_of_mem_take hr) r2 ((List.perm_insertionSort symGE _).mem_iff.mpr hr2) hk
  · exact List.length_take_le _ _

/-- C5 witness: the amended tier semantics at the concrete store. -/
theorem c5_witness :
    (symbol_search c5DB "foo" 20).length ≤ 20 ∧
    (((mkSymResult c5DB ⟨"/proj", "f.py", "Foo", "function", none, "python", 1, 2, none⟩
        (mkRat 8 10) "prefix").name = "foo" ∧
      (mkSymResult c5DB ⟨"/proj", "f.py", "Foo", "function", none, "python", 1, 2, none⟩
        (mkRat 8 10) "prefix").score = mkRat 1 1 ∧
      (mkSymResult c5DB ⟨"/proj", "f.py", "Foo", "function", none, "python", 1, 2, none⟩
        (mkRat 8 10) "prefix").match_type = "exact") ∨
     ((mkSymResult c5DB ⟨"/proj", "f.py", "Foo", "function", none, "python", 1, 2, none⟩
        (mkRat 8 10) "prefix").name ≠ "foo" ∧
      sqlLike ("foo" ++ "%")
        (mkSymResult c5DB ⟨"/proj", "f.py", "Foo", "function", none, "python", 1, 2, none⟩
          (mkRat 8 10) "prefix").name = true ∧
      (mkSymResult c5DB ⟨"/proj", "f.py", "Foo", "function", none, "python", 1, 2, none⟩
        (mkRat 8 10) "prefix").score = mkRat 8 10 ∧
      (mkSymResult c5DB ⟨"/proj", "f.py", "Foo", "function", none, "python", 1, 2, none⟩
        (mkRat 8 10) "prefix").match_type = "prefix") ∨
     (sqlLike ("%" ++ "foo" ++ "%")
        (mkSymResult c5DB ⟨"/proj", "f.py", "Foo", "function", none, "python", 1, 2, none⟩
          (mkRat 8 10) "prefix").name = true ∧
      sqlLike ("foo" ++ "%")
        (mkSymResult c5DB ⟨"/proj", "f.py", "Foo", "function", none, "python", 1, 2, none⟩
          (mkRat 8 10) "prefix").name = false ∧
      (mkSymResult c5DB ⟨"/proj", "f.py", "Foo", "function", none, "python", 1, 2, none⟩
        (mkRat 8 10) "prefix").score = mkRat 5 10 ∧
      (mkSymResult c5DB ⟨"/proj", "f.py", "Foo", "function", none, "python", 1, 2, none⟩
        (mkRat 8 10) "prefix").match_type = "contains")) :=
  ⟨(c5_tier_semantics c5DB "foo" 20).2.2.2.2.2,
   (c5_tier_semantics c5DB "foo" 20).1 _ (by decide)⟩

/-! ## C8 -/

/-- Evaluate round3 through an exact thousandths value. -/
theorem round3_eq (x : ℚ) (n : ℤ) (h : x * 1000 = (n : ℚ)) : round3 x = (n : ℚ) / 1000 := by
  rw [round3, h, round_intCast]

/-- The single merged entry of the C8 scenario. -/
def c8Entry : HEntry :=
  { rtype := "symbol", name := "foobar", file_path := "a.ts", line := some 5,
    chunk_type := some "function", content := "function foobar() ...",
    scores := ⟨0, mkRat 8 10, mkRat 1 1⟩,
    match_types := ["symbol:prefix", "fulltext"] }

/-- C8: for the key matched by symbol search at 0.8 and full-text
search at 1.0 under the default weights, the pre-boost score is
0.8 x 0.35 + 1.0 x 0.25 = 0.53, two signals are non-zero, and the
reported final score is 0.53 x 1.1 = 0.583. -/
theorem c8_hybrid_merge_arithmetic :
    (hybrid_search c8DB "foo" 10 SEARCH_WEIGHTS []).map HResult.score = [mkRat 583 1000] ∧
    (hybrid_search c8DB "foo" 10 SEARCH_WEIGHTS []).map HResult.breakdown =
      [⟨0, mkRat 8 10, mkRat 1 1⟩] ∧
    mkRat 8 10 * mkRat 35 100 + mkRat 1 1 * mkRat 25 100 = mkRat 53 100 ∧
    mkRat 53 100 * (1 + mkRat 1 10 * (2 - 1)) = mkRat 583 1000 := by
  have hm : hybrid_merge (symbol_search c8DB "foo" 20) (text_search c8DB "foo" 20) [] =
      [("a.ts:5", c8Entry)] := by
    decide
  have hr0 : round3 (0 : ℚ) = 0 := by
    rw [round3_eq 0 0 (by norm_num)]
    norm_num
  have hr8 : round3 (mkRat 8 10) = mkRat 8 10 := by
    rw [round3_eq _ 800 (by norm_num [Rat.mkRat_eq_div])]
    norm_num [Rat.mkRat_eq_div]
  have hr1 : round3 (mkRat 1 1) = mkRat 1 1 := by
    rw [round3_eq _ 1000 (by norm_num [Rat.mkRat_eq_div])]
    norm_num [Rat.mkRat_eq_div]
  have hmc : countPos c8Entry.scores = 2 := by
    norm_num [countPos, c8Entry, Rat.mkRat_eq_div]
  have hsc : (finalize SEARCH_WEIGHTS c8Entry).score = mkRat 583 1000 := by
    simp only [finalize]
    rw [hmc]
    norm_num [SEARCH_WEIGHTS, c8Entry]
    rw [round3_eq _ 583 (by norm_num [Rat.mkRat_eq_div])]
    norm_num [Rat.mkRat_eq_div]
  have hbd : (finalize SEARCH_WEIGHTS c8Entry).breakdown = ⟨0, mkRat 8 10, mkRat 1 1⟩ := by
    simp only [finalize, c8Entry]
    rw [hr0, hr8, hr1]
  refine ⟨?_, ?_, by norm_num [Rat.mkRat_eq_div], by norm_num [Rat.mkRat_eq_div]⟩ <;>
  · simp only [hybrid_search, hybrid_rank, show (10 * 2 : Nat) = 20 from rfl]
    rw [hm]
    simp [List.insertionSort, List.orderedInsert, hsc, hbd]
